import Mathlib

/-! GM Services front-end script (`static/js/main.js`).

A shallow embedding of these parts of the script:

* `debounce` (lines 196-206) together with the `#search-input` handler
  (lines 48-55) and `performSearch` / `hideSearchResults`;
* the `StatusAutoRefresh` class (lines 853-913);
* `calculatePasswordStrength` and the `switch` of
  `updatePasswordStrengthIndicator` (lines 137-187);
* the phone formatter and `isValidEmail` of `ServiceRequestForm`
  (lines 713-734);
* `formatRequestNumber`, `isValidRequestNumber` and `handleTrackSubmit` of
  `RequestTracker` (lines 809-849).

The browser is modelled by explicit state: a clock in milliseconds, the table
of live timers, the `document.hidden` flag and the list of registered
`visibilitychange` listeners.  Timers never fire early; they may fire late
(general traces) or exactly when due (`elapse`).
-/

namespace GMServices

/-! ## JavaScript values used by the script -/

/-- A JavaScript string, as its sequence of code points (lone surrogates are
not represented). -/
abbrev JSString := List Char

/-- Number of UTF-16 code units of one code point. -/
def utf16Size (c : Char) : Nat := if c.toNat < 65536 then 1 else 2

/-- The `length` property of a string: its number of UTF-16 code units. -/
def jsLength (s : JSString) : Nat := (s.map utf16Size).sum

/-- The receiver (`this`) of a function call: either a DOM element, or the
default receiver of a plain call `f(...)` (the global object in sloppy code,
`undefined` in strict code). -/
inductive ThisVal where
  | defaultThis
  | element (id : Nat)
  deriving DecidableEq, Repr

/-! ## `debounce(func, wait)` -/

/-- A pending one-shot timer created by `setTimeout(later, wait)` inside
`executedFunction`.  The closure `later` captures the arguments of the call
that created it (and, lexically, its receiver); `callIdx` is the ordinal of
that call, kept to name the call a later execution of `func` belongs to. -/
structure Timeout (α : Type) where
  handle : Nat
  due : Nat
  callIdx : Nat
  receiver : ThisVal
  args : α
  deriving DecidableEq, Repr

/-- One execution of the wrapped `func`: when it ran, for which call of the
debounced function, and the receiver and arguments that `func` was given. -/
structure Invocation (α : Type) where
  time : Nat
  callIdx : Nat
  thisArg : ThisVal
  args : α
  deriving DecidableEq, Repr

/-- State of one debounced function and of the browser around it: the clock,
the last timer handle handed out, the pending timers created by this debounced
function, the closure variable `timeout`, the number of calls made so far and
the executions of `func` so far. -/
structure Debounced (α : Type) where
  now : Nat
  nextHandle : Nat
  pending : List (Timeout α)
  timeout : Option Nat
  callCount : Nat
  log : List (Invocation α)
  deriving DecidableEq, Repr

/-- The state right after `debounce(func, wait)` returned: `timeout` is
`undefined`, nothing is pending, `func` has not run. -/
def Debounced.init {α : Type} : Debounced α :=
  { now := 0, nextHandle := 0, pending := [], timeout := none, callCount := 0, log := [] }

/-- The browser's `clearTimeout(handle)`: removes the timer with that handle,
does nothing for `undefined` or a handle that is not pending. -/
def clearTimeout {α : Type} (handle : Option Nat) (pending : List (Timeout α)) :
    List (Timeout α) :=
  match handle with
  | none => pending
  | some h => pending.filter (fun t => t.handle != h)

/-- The function returned by `debounce`: `clearTimeout(timeout);
timeout = setTimeout(later, wait)`.  Handles are positive and fresh. -/
def executedFunction {α : Type} (wait : Nat) (receiver : ThisVal) (args : α)
    (s : Debounced α) : Debounced α :=
  let h := s.nextHandle + 1
  { now := s.now
    nextHandle := h
    pending := clearTimeout s.timeout s.pending ++
      [{ handle := h, due := s.now + wait, callIdx := s.callCount,
         receiver := receiver, args := args }]
    timeout := some h
    callCount := s.callCount + 1
    log := s.log }

/-- The timer callback `later` of timer `t`: `clearTimeout(timeout);
func(...args)`.  The call `func(...args)` is a plain call, so `func` gets the
default receiver and not the receiver of `executedFunction`. -/
def later {α : Type} (t : Timeout α) (s : Debounced α) : Debounced α :=
  { s with
    pending := clearTimeout s.timeout s.pending
    log := s.log ++ [{ time := s.now, callIdx := t.callIdx,
                       thisArg := ThisVal.defaultThis, args := t.args }] }

/-- The browser fires timer `t`: it leaves the timer table and its callback
runs. -/
def fire {α : Type} (t : Timeout α) (s : Debounced α) : Debounced α :=
  later t { s with pending := s.pending.filter (fun u => u.handle != t.handle) }

/-- Expiry of the timer with handle `h`: enabled only when that timer is
pending and due. -/
def expire {α : Type} (h : Nat) (s : Debounced α) : Debounced α :=
  match s.pending.find? (fun t => t.handle == h && decide (t.due ≤ s.now)) with
  | none => s
  | some t => fire t s

/-- What can happen to a debounced function: it is called, one of its timers
expires, or time passes. -/
inductive DebounceEvent (α : Type) where
  | call (receiver : ThisVal) (args : α)
  | expire (h : Nat)
  | wait (d : Nat)
  deriving DecidableEq, Repr

/-- One step of the event loop. -/
def Debounced.step {α : Type} (wait : Nat) (e : DebounceEvent α) (s : Debounced α) :
    Debounced α :=
  match e with
  | DebounceEvent.call receiver args => executedFunction wait receiver args s
  | DebounceEvent.expire h => expire h s
  | DebounceEvent.wait d => { s with now := s.now + d }

/-- A run of the event loop over a list of events. -/
def Debounced.run {α : Type} (wait : Nat) (evs : List (DebounceEvent α)) (s : Debounced α) :
    Debounced α :=
  evs.foldl (fun acc e => Debounced.step wait e acc) s

/-- The pending timer that is due first (the one created first among equals). -/
def earliest {α : Type} : List (Timeout α) → Option (Timeout α)
  | [] => none
  | t :: ts =>
    match earliest ts with
    | none => some t
    | some u => if t.due ≤ u.due then some t else some u

/-- Punctual passage of time up to the instant `target`: every pending timer
due by then fires at its due time, in order. -/
def Debounced.elapseTo {α : Type} (target : Nat) : Nat → Debounced α → Debounced α
  | 0, s => { s with now := max s.now target }
  | fuel + 1, s =>
    match earliest s.pending with
    | none => { s with now := max s.now target }
    | some t =>
      if t.due ≤ target then
        Debounced.elapseTo target fuel (fire t { s with now := max s.now t.due })
      else { s with now := max s.now target }

/-- Punctual passage of `d` milliseconds with no call in between.  Firing a
timer removes it, so one round per pending timer is enough
(`elapse_no_due_left`). -/
def Debounced.elapse {α : Type} (d : Nat) (s : Debounced α) : Debounced α :=
  Debounced.elapseTo (s.now + d) s.pending.length s

/-- Between two consecutive calls less than `wait` milliseconds pass.  The
accumulator is the time passed since the last call, if there was one. -/
def rapid {α : Type} (wait : Nat) : Option Nat → List (DebounceEvent α) → Bool
  | _, [] => true
  | acc, DebounceEvent.wait d :: es => rapid wait (acc.map (· + d)) es
  | acc, DebounceEvent.expire _ :: es => rapid wait acc es
  | none, DebounceEvent.call _ _ :: es => rapid wait (some 0) es
  | some a, DebounceEvent.call _ _ :: es => decide (a < wait) && rapid wait (some 0) es

/-! ## The search box -/

/-- Observable effects of the search functions. -/
inductive Effect where
  | ajax (url method : String) (q : JSString) (limit : Nat)
  | hide (selector : String)
  deriving DecidableEq, Repr

/-- The function `performSearch(query)`: one `$.ajax` GET request to the search
endpoint with `data: { q: query, limit: 5 }`. -/
def performSearch (query : JSString) : List Effect :=
  [Effect.ajax "/services/api/search" "GET" query 5]

/-- The function `hideSearchResults()`: `$('#search-results').hide()`. -/
def hideSearchResults : List Effect :=
  [Effect.hide "#search-results"]

/-- The functions the search handler may call. -/
inductive Callee where
  | performSearch (query : JSString)
  | hideSearchResults
  deriving DecidableEq, Repr

/-- Effects of a call made by the handler. -/
def Callee.effects : Callee → List Effect
  | Callee.performSearch query => GMServices.performSearch query
  | Callee.hideSearchResults => GMServices.hideSearchResults

/-- The handler passed to `debounce` for `#search-input` (lines 48-55):
`const query = $(this).val(); if (query.length >= 2) performSearch(query) else
hideSearchResults()`.  `val` is jQuery's `$(this).val()` as a function of the
receiver; `none` stands for a value without a string `length` (`undefined`, or
an exception inside jQuery), for which the handler throws before calling
anything. -/
def searchInputHandler (val : ThisVal → Option JSString) (this : ThisVal) : List Callee :=
  match val this with
  | none => []
  | some query =>
    if jsLength query ≥ 2 then [Callee.performSearch query]
    else [Callee.hideSearchResults]

/-- The debounce window of the search box. -/
def searchWait : Nat := 300

/-- Calls made by the search handler over all executions recorded in the log
of its debounced wrapper. -/
def searchCalls {α : Type} (val : ThisVal → Option JSString) (s : Debounced α) : List Callee :=
  s.log.flatMap (fun inv => searchInputHandler val inv.thisArg)

/-! ## String helpers used by `StatusAutoRefresh` -/

/-- White space and line terminators, the code points removed by
`String.prototype.trim`. -/
def isTrimChar (c : Char) : Bool :=
  let n := c.toNat
  n == 0x09 || n == 0x0A || n == 0x0B || n == 0x0C || n == 0x0D || n == 0x20 ||
  n == 0xA0 || n == 0x1680 || (decide (0x2000 ≤ n) && decide (n ≤ 0x200A)) ||
  n == 0x2028 || n == 0x2029 || n == 0x202F || n == 0x205F || n == 0x3000 ||
  n == 0xFEFF

/-- The method `String.prototype.trim`. -/
def trim (s : JSString) : JSString :=
  ((s.dropWhile isTrimChar).reverse.dropWhile isTrimChar).reverse

/-- The method `String.prototype.includes`: `pat` occurs in `s` as a contiguous
substring. -/
def includes : JSString → JSString → Bool
  | [], pat => pat.isEmpty
  | c :: cs, pat => pat.isPrefixOf (c :: cs) || includes cs pat

/-- Lower-casing of the letters A-Z, the part of `String.prototype.toLowerCase`
that does not depend on the Unicode case tables. -/
def asciiLowerChar (c : Char) : Char :=
  if 65 ≤ c.toNat ∧ c.toNat ≤ 90 then Char.ofNat (c.toNat + 32) else c

/-- Lower-casing of the letters A-Z in a string. -/
def asciiLower (s : JSString) : JSString := s.map asciiLowerChar

/-- The array `activeStatuses` of `init`. -/
def activeStatuses : List JSString :=
  ["submitted".toList, "assigned".toList, "in progress".toList]

/-! ## `StatusAutoRefresh` -/

/-- What `init` reads from the page: `window.location.pathname`, the
`textContent` of the first `.status-badge` element (`none` when
`querySelector` returns `null`), and `document.hidden` at load time. -/
structure Page where
  pathname : JSString
  statusBadge : Option JSString
  hidden : Bool
  deriving DecidableEq, Repr

/-- A live repeating timer created by `setInterval`. -/
structure Interval where
  handle : Nat
  period : Nat
  due : Nat
  deriving DecidableEq, Repr

/-- One invocation of `refreshStatus`: when, and the value of
`document.hidden` at that moment. -/
structure Refresh where
  time : Nat
  hidden : Bool
  deriving DecidableEq, Repr

/-- A `StatusAutoRefresh` instance (`isActive`, `interval`, `refreshRate`)
together with the browser state it acts on: the clock, `document.hidden`, the
last timer handle handed out, the live interval timers and the number of
`visibilitychange` listeners registered by the instance, and the invocations of
`refreshStatus` so far. -/
structure StatusAutoRefresh where
  isActive : Bool
  interval : Option Nat
  refreshRate : Nat
  now : Nat
  hidden : Bool
  nextHandle : Nat
  intervals : List Interval
  listeners : Nat
  refreshes : List Refresh
  deriving DecidableEq, Repr

namespace StatusAutoRefresh

/-- Truthiness of `this.interval`: `null` is falsy, a timer handle is truthy
unless it is `0`. -/
def truthy : Option Nat → Bool
  | none => false
  | some h => h != 0

/-- The browser's `clearInterval(handle)`. -/
def clearInterval (handle : Option Nat) (intervals : List Interval) : List Interval :=
  match handle with
  | none => intervals
  | some h => intervals.filter (fun i => i.handle != h)

/-- The method `refreshStatus()`: `window.location.reload()`.  The reload is
recorded; the tear-down of the page that follows it is not modelled, so the
instance is followed for as long as its timers could still run. -/
def refreshStatus (s : StatusAutoRefresh) : StatusAutoRefresh :=
  { s with refreshes := s.refreshes ++ [{ time := s.now, hidden := s.hidden }] }

/-- The callback given to `setInterval`: `if (!document.hidden)
this.refreshStatus()`. -/
def intervalCallback (s : StatusAutoRefresh) : StatusAutoRefresh :=
  if !s.hidden then refreshStatus s else s

/-- The method `startAutoRefresh()`: sets `isActive`, stores the handle of a new
interval timer of period `refreshRate`, and registers one more
`visibilitychange` listener. -/
def startAutoRefresh (s : StatusAutoRefresh) : StatusAutoRefresh :=
  let h := s.nextHandle + 1
  { s with
    isActive := true
    interval := some h
    nextHandle := h
    intervals := s.intervals ++
      [{ handle := h, period := s.refreshRate, due := s.now + s.refreshRate }]
    listeners := s.listeners + 1 }

/-- The method `pauseAutoRefresh()`. -/
def pauseAutoRefresh (s : StatusAutoRefresh) : StatusAutoRefresh :=
  if truthy s.interval then
    { s with intervals := clearInterval s.interval s.intervals, interval := none }
  else s

/-- The method `resumeAutoRefresh()`. -/
def resumeAutoRefresh (s : StatusAutoRefresh) : StatusAutoRefresh :=
  if s.isActive && !truthy s.interval then startAutoRefresh s else s

/-- The `visibilitychange` listener registered by `startAutoRefresh`. -/
def visibilityListener (s : StatusAutoRefresh) : StatusAutoRefresh :=
  if s.hidden then pauseAutoRefresh s else resumeAutoRefresh s

/-- The fields set by the constructor before it calls `init`, on a page whose
clock starts at `0` and that has no timers and no listeners yet. -/
def fresh (page : Page) : StatusAutoRefresh :=
  { isActive := false, interval := none, refreshRate := 30000, now := 0,
    hidden := page.hidden, nextHandle := 0, intervals := [], listeners := 0,
    refreshes := [] }

/-- The method `init()`.  `toLowerCase` is `String.prototype.toLowerCase`. -/
def init (toLowerCase : JSString → JSString) (page : Page) (s : StatusAutoRefresh) :
    StatusAutoRefresh :=
  let isStatusPage := includes page.pathname "/request/track".toList
  match page.statusBadge with
  | none => s
  | some textContent =>
    if isStatusPage then
      let status := toLowerCase (trim textContent)
      if activeStatuses.any (fun a => includes status a) then startAutoRefresh s else s
    else s

/-- The constructor `new StatusAutoRefresh()`. -/
def new (toLowerCase : JSString → JSString) (page : Page) : StatusAutoRefresh :=
  init toLowerCase page (fresh page)

/-- What can happen to the page after the instance was constructed: the
visibility changes (the browser updates `document.hidden` and dispatches
`visibilitychange`), the interval timer with handle `h` fires, or time
passes. -/
inductive PollerEvent where
  | visibilityChange (hidden : Bool)
  | tick (h : Nat)
  | wait (d : Nat)
  deriving DecidableEq, Repr

/-- Dispatch of `visibilitychange`: the listeners registered when the dispatch
starts run one after the other; a listener added during the dispatch is not
run for this event. -/
def dispatchVisibilityChange (s : StatusAutoRefresh) : StatusAutoRefresh :=
  Nat.iterate visibilityListener s.listeners s

/-- The interval timer with handle `h` fires: enabled only when it is live and
due (it may fire late); the timer is re-armed one period after the firing, as in
the timer initialisation steps of the HTML Standard, and the callback runs. -/
def tick (h : Nat) (s : StatusAutoRefresh) : StatusAutoRefresh :=
  match s.intervals.find? (fun i => i.handle == h && decide (i.due ≤ s.now)) with
  | none => s
  | some _ =>
    intervalCallback
      { s with intervals := s.intervals.map (fun i =>
          if i.handle == h then { i with due := s.now + i.period } else i) }

/-- One step of the event loop. -/
def step (e : PollerEvent) (s : StatusAutoRefresh) : StatusAutoRefresh :=
  match e with
  | PollerEvent.visibilityChange hidden => dispatchVisibilityChange { s with hidden := hidden }
  | PollerEvent.tick h => tick h s
  | PollerEvent.wait d => { s with now := s.now + d }

/-- A run of the event loop over a list of events. -/
def run (evs : List PollerEvent) (s : StatusAutoRefresh) : StatusAutoRefresh :=
  evs.foldl (fun acc e => step e acc) s

end StatusAutoRefresh

/-- The calls of the debounced function among a list of events, in order. -/
def callsOf {α : Type} : List (DebounceEvent α) → List (ThisVal × α)
  | [] => []
  | DebounceEvent.call r a :: es => (r, a) :: callsOf es
  | DebounceEvent.expire _ :: es => callsOf es
  | DebounceEvent.wait _ :: es => callsOf es

/-- Sample run for `debounce`: three calls 100 ms apart with a window of 300 ms,
then 300 ms pass and the timers are given the chance to expire. -/
def sampleCalls : List (DebounceEvent Nat) :=
  [DebounceEvent.call (ThisVal.element 1) 10, DebounceEvent.wait 100,
   DebounceEvent.call (ThisVal.element 1) 20, DebounceEvent.expire 1,
   DebounceEvent.wait 100,
   DebounceEvent.call (ThisVal.element 1) 30, DebounceEvent.wait 300,
   DebounceEvent.expire 2, DebounceEvent.expire 3]

/-- Sample page state for the search box: the value of the input element `1`;
reading a value through any other receiver yields no string. -/
def sampleVal (value : JSString) : ThisVal → Option JSString
  | ThisVal.element 1 => some value
  | _ => none

/-- The read `$(this).val()` of jQuery in a page whose elements have the values
`values` (`none`: no such element, or an element without a string value).
Through the default receiver no string is read: `$(window).val()` throws inside
jQuery, `window` having no `nodeName`, and `$(undefined).val()` is
`undefined`. -/
def domVal (values : Nat → Option JSString) : ThisVal → Option JSString
  | ThisVal.defaultThis => none
  | ThisVal.element id => values id

/-! ## Invariants -/

/-- At most one timer of the debounced function is pending, and it is the one
whose handle is stored in `timeout`. -/
def OneTimer {α : Type} (s : Debounced α) : Prop :=
  s.pending = [] ∨ ∃ t, s.pending = [t] ∧ s.timeout = some t.handle

/-- Invariant of a run in which calls follow each other by less than `wait`:
every execution of `func` and every pending timer belongs to the latest call,
the pending timer is due `wait` after that call, and `func` has not run at all
while less than `wait` has passed since the latest call. -/
def RapidInv {α : Type} (wait : Nat) (acc : Option Nat) (s : Debounced α) : Prop :=
  OneTimer s ∧
  (∀ e ∈ s.log, e.callIdx + 1 = s.callCount) ∧
  (∀ t ∈ s.pending,
    t.callIdx + 1 = s.callCount ∧ ∃ a, acc = some a ∧ t.due + a = s.now + wait) ∧
  (acc = none → s.log = []) ∧
  (∀ a, acc = some a → a < wait → s.log = [])

/-- Invariant of a `StatusAutoRefresh` instance: the refresh rate is 30000; the
stored handle and the live interval timers agree (none, or exactly one timer,
of period 30000, with a non-zero handle, not due before 30000 ms have passed
since any refresh); every refresh happened while the page was visible, no
earlier than 30000 ms after construction and not in the future; refreshes are
at least 30000 ms apart; an instance that is not active has no listener, no
timer and no refresh. -/
def PollerInv (s : StatusAutoRefresh) : Prop :=
  s.refreshRate = 30000 ∧
  ((s.interval = none ∧ s.intervals = []) ∨
    ∃ i, s.intervals = [i] ∧ s.interval = some i.handle ∧ i.handle ≠ 0 ∧ i.period = 30000 ∧
      30000 ≤ i.due ∧ ∀ r ∈ s.refreshes, r.time + 30000 ≤ i.due) ∧
  (∀ r ∈ s.refreshes, r.hidden = false ∧ 30000 ≤ r.time ∧ r.time ≤ s.now) ∧
  s.refreshes.Pairwise (fun a b => a.time + 30000 ≤ b.time) ∧
  (s.isActive = false → s.listeners = 0 ∧ s.intervals = [] ∧ s.refreshes = [])

/-- Sample page: a tracking page whose status badge reads "Assigned". -/
def samplePage : Page :=
  { pathname := "/request/track/SR240919ABC123".toList,
    statusBadge := some " Assigned ".toList, hidden := false }

/-- Sample page: a tracking page whose status badge reads "Completed". -/
def samplePageDone : Page :=
  { pathname := "/request/track/SR240919ABC123".toList,
    statusBadge := some " Completed\n".toList, hidden := false }

/-- Sample events: the page is hidden, shown again, and the timers get their
chance to fire. -/
def sampleEvents : List StatusAutoRefresh.PollerEvent :=
  [StatusAutoRefresh.PollerEvent.wait 30000, StatusAutoRefresh.PollerEvent.tick 1,
   StatusAutoRefresh.PollerEvent.visibilityChange true,
   StatusAutoRefresh.PollerEvent.visibilityChange false,
   StatusAutoRefresh.PollerEvent.wait 30000, StatusAutoRefresh.PollerEvent.tick 1,
   StatusAutoRefresh.PollerEvent.tick 2, StatusAutoRefresh.PollerEvent.tick 2]

/-! ## Character classes and regular expressions of the script

The regular expressions of the script have no flags, so they work on UTF-16
code units.  Their classes are either sets of ASCII characters or complements
of such sets, and a complemented class is only used under `+`, in a search or
in a global deletion; matching code point by code point therefore gives the
same results. -/

/-- The class `\d`, that is `[0-9]`. -/
def isDigit (c : Char) : Bool := decide (48 ≤ c.toNat ∧ c.toNat ≤ 57)

/-- The class `[A-Z]`. -/
def isUpper (c : Char) : Bool := decide (65 ≤ c.toNat ∧ c.toNat ≤ 90)

/-- The class `[a-z]`. -/
def isLower (c : Char) : Bool := decide (97 ≤ c.toNat ∧ c.toNat ≤ 122)

/-- The class `[A-Z0-9]`. -/
def isUpperOrDigit (c : Char) : Bool := isUpper c || isDigit c

/-- The class `[^\s@]`; `\s` is the set of code points of `isTrimChar`. -/
def isEmailChar (c : Char) : Bool := !(isTrimChar c || c == '@')

/-- A literal character of a pattern, as a class. -/
def lit (a : Char) : Char → Bool := fun c => c == a

/-- Quantifier of a pattern item: none, `{n}` or `+`. -/
inductive Quant where
  | one
  | exactly (n : Nat)
  | plus
  deriving DecidableEq, Repr

/-- One item of a pattern: a character class with its quantifier. -/
structure Item where
  cls : Char → Bool
  quant : Quant

/-- An unquantified class followed by the rest `k` of the pattern. -/
def matchOne (cls : Char → Bool) (k : JSString → Bool) : JSString → Bool
  | [] => false
  | c :: cs => cls c && k cs

/-- A class under `{n}` followed by the rest `k` of the pattern. -/
def matchExactly (cls : Char → Bool) (k : JSString → Bool) : Nat → JSString → Bool
  | 0, s => k s
  | _ + 1, [] => false
  | n + 1, c :: cs => cls c && matchExactly cls k n cs

/-- A class under `+` followed by the rest `k` of the pattern: one or more
characters of the class, with every number of repetitions tried. -/
def matchPlus (cls : Char → Bool) (k : JSString → Bool) : JSString → Bool
  | [] => false
  | c :: cs => cls c && (k cs || matchPlus cls k cs)

/-- The call `/^...$/.test(s)` for a pattern that is a sequence of items: the
whole of `s` matches the items in order. -/
def testAnchored : List Item → JSString → Bool
  | [] => fun s => s.isEmpty
  | i :: rest =>
    match i.quant with
    | Quant.one => matchOne i.cls (testAnchored rest)
    | Quant.exactly n => matchExactly i.cls (testAnchored rest) n
    | Quant.plus => matchPlus i.cls (testAnchored rest)

/-- The call `/[...]/.test(s)` for a single class: some character of `s` is in
the class. -/
def testClass (cls : Char → Bool) (s : JSString) : Bool := s.any cls

/-- The call `s.replace(/[...]/g, '')` for a single class: every character of
the class is deleted. -/
def deleteClass (cls : Char → Bool) (s : JSString) : JSString :=
  s.filter (fun c => !cls c)

/-- Upper-casing of the letters a-z, the part of `String.prototype.toUpperCase`
that does not depend on the Unicode case tables. -/
def asciiUpperChar (c : Char) : Char :=
  if 97 ≤ c.toNat ∧ c.toNat ≤ 122 then Char.ofNat (c.toNat - 32) else c

/-- Upper-casing of the letters a-z in a string. -/
def asciiUpper (s : JSString) : JSString := s.map asciiUpperChar

/-! ## Password strength -/

/-- The function `calculatePasswordStrength(password)`. -/
def calculatePasswordStrength (password : JSString) : Nat :=
  let strength := 0
  let strength := if jsLength password ≥ 6 then strength + 1 else strength
  let strength := if jsLength password ≥ 10 then strength + 1 else strength
  let strength := if testClass isLower password then strength + 1 else strength
  let strength := if testClass isUpper password then strength + 1 else strength
  let strength := if testClass isDigit password then strength + 1 else strength
  let strength :=
    if testClass (fun c => !(isUpper c || isLower c || isDigit c)) password then strength + 1
    else strength
  strength

/-- What `updatePasswordStrengthIndicator` shows on the progress bar. -/
structure Indicator where
  percentage : Nat
  className : String
  text : String
  deriving DecidableEq, Repr

/-- The `switch` of `updatePasswordStrengthIndicator(strength)`; when no case
label matches, the initial values `0`, `''`, `''` are kept. -/
def updatePasswordStrengthIndicator (strength : Nat) : Indicator :=
  match strength with
  | 0 => { percentage := 20, className := "bg-danger", text := "Very Weak" }
  | 1 => { percentage := 20, className := "bg-danger", text := "Very Weak" }
  | 2 => { percentage := 40, className := "bg-warning", text := "Weak" }
  | 3 => { percentage := 60, className := "bg-info", text := "Fair" }
  | 4 => { percentage := 80, className := "bg-primary", text := "Good" }
  | 5 => { percentage := 100, className := "bg-success", text := "Strong" }
  | 6 => { percentage := 100, className := "bg-success", text := "Strong" }
  | _ => { percentage := 0, className := "", text := "" }

/-! ## `ServiceRequestForm` -/

namespace ServiceRequestForm

/-- The `input` handler of the phone field in `setupValidation`, as a function
from the value of the field to its new value.  In the branch that calls
`value.substring(1)` the first code unit is the digit `0`. -/
def phoneInputHandler (targetValue : JSString) : JSString :=
  let value := deleteClass (fun c => !isDigit c) targetValue
  if "234".toList.isPrefixOf value then
    '+' :: value
  else if "0".toList.isPrefixOf value then
    "+234".toList ++ value.drop 1
  else if decide (jsLength value > 0) && !("+".toList.isPrefixOf value) then
    "+234".toList ++ value
  else value

/-- The pattern `/^[^\s@]+@[^\s@]+\.[^\s@]+$/`. -/
def emailRegex : List Item :=
  [{ cls := isEmailChar, quant := Quant.plus }, { cls := lit '@', quant := Quant.one },
   { cls := isEmailChar, quant := Quant.plus }, { cls := lit '.', quant := Quant.one },
   { cls := isEmailChar, quant := Quant.plus }]

/-- The method `isValidEmail(email)`. -/
def isValidEmail (email : JSString) : Bool := testAnchored emailRegex email

end ServiceRequestForm

/-! ## `RequestTracker` -/

namespace RequestTracker

/-- The method `formatRequestNumber(event)`, as a function from the value of
the field to its new value.  `toUpperCase` is `String.prototype.toUpperCase`. -/
def formatRequestNumber (toUpperCase : JSString → JSString) (targetValue : JSString) :
    JSString :=
  deleteClass (fun c => !isUpperOrDigit c) (toUpperCase targetValue)

/-- The pattern `/^SR\d{6}[A-Z0-9]{6}$/`. -/
def pattern : List Item :=
  [{ cls := lit 'S', quant := Quant.one }, { cls := lit 'R', quant := Quant.one },
   { cls := isDigit, quant := Quant.exactly 6 },
   { cls := isUpperOrDigit, quant := Quant.exactly 6 }]

/-- The method `isValidRequestNumber(requestNumber)`. -/
def isValidRequestNumber (requestNumber : JSString) : Bool :=
  testAnchored pattern requestNumber

/-- Effects of `handleTrackSubmit`, in the order in which they happen. -/
inductive SubmitEffect where
  | preventDefault
  | showAlert (message type : String)
  | focus
  deriving DecidableEq, Repr

/-- The method `handleTrackSubmit(event)`.  The argument is the value of
`this.requestNumberInput`, `none` when that field is `null`, in which case
reading `.value` throws; the result lists the effects of the call. -/
def handleTrackSubmit (requestNumberInput : Option JSString) : Option (List SubmitEffect) :=
  match requestNumberInput with
  | none => none
  | some value =>
    let requestNumber := trim value
    if requestNumber.isEmpty then
      some [SubmitEffect.preventDefault,
            SubmitEffect.showAlert "Please enter a request number." "error",
            SubmitEffect.focus]
    else if !isValidRequestNumber requestNumber then
      some [SubmitEffect.preventDefault,
            SubmitEffect.showAlert "Please enter a valid request number format." "error",
            SubmitEffect.focus]
    else some []

/-- Number of alerts among the effects of a call. -/
def alerts : List SubmitEffect → Nat
  | [] => 0
  | SubmitEffect.showAlert _ _ :: es => alerts es + 1
  | _ :: es => alerts es

end RequestTracker

end GMServices

/-! # Theorems -/

namespace GMServices

/-! ## `debounce` -/

theorem oneTimer_clear {α : Type} (s : Debounced α) (h : OneTimer s) :
    clearTimeout s.timeout s.pending = [] := by
  rcases h with h | ⟨t, ht, hto⟩
  · rw [h]; cases s.timeout <;> simp [clearTimeout]
  · rw [ht, hto]; simp [clearTimeout]

theorem oneTimer_executedFunction {α : Type} (wait : Nat) (r : ThisVal) (a : α)
    (s : Debounced α) (h : OneTimer s) :
    (executedFunction wait r a s).pending =
        [{ handle := s.nextHandle + 1, due := s.now + wait, callIdx := s.callCount,
           receiver := r, args := a }] ∧
      OneTimer (executedFunction wait r a s) := by
  have hc := oneTimer_clear s h
  have hp : (executedFunction wait r a s).pending =
      [{ handle := s.nextHandle + 1, due := s.now + wait, callIdx := s.callCount,
         receiver := r, args := a }] := by
    simp [executedFunction, hc]
  exact ⟨hp, Or.inr ⟨_, hp, rfl⟩⟩

theorem oneTimer_find {α : Type} (s : Debounced α) (h : OneTimer s) (p : Timeout α → Bool)
    (t : Timeout α) (hf : s.pending.find? p = some t) :
    s.pending = [t] ∧ s.timeout = some t.handle ∧ p t = true := by
  have hp := List.find?_some hf
  have hm := List.mem_of_find?_eq_some hf
  rcases h with h | ⟨u, hu, hto⟩
  · rw [h] at hm; simp at hm
  · rw [hu] at hm
    have : t = u := by simpa using hm
    subst this
    exact ⟨hu, hto, hp⟩

theorem fire_of_single {α : Type} (s : Debounced α) (t : Timeout α)
    (hp : s.pending = [t]) :
    (fire t s).pending = [] ∧
      (fire t s).log = s.log ++ [{ time := s.now, callIdx := t.callIdx,
                                   thisArg := ThisVal.defaultThis, args := t.args }] ∧
      (fire t s).now = s.now ∧ (fire t s).callCount = s.callCount ∧
      (fire t s).timeout = s.timeout ∧ (fire t s).nextHandle = s.nextHandle := by
  refine ⟨?_, rfl, rfl, rfl, rfl, rfl⟩
  simp only [fire, later, hp]
  cases s.timeout <;> simp [clearTimeout]

theorem oneTimer_expire {α : Type} (h : Nat) (s : Debounced α) (hs : OneTimer s) :
    OneTimer (expire h s) := by
  unfold expire
  split
  · exact hs
  · next t hf =>
    obtain ⟨hp, -, -⟩ := oneTimer_find s hs _ t hf
    exact Or.inl (fire_of_single s t hp).1

theorem oneTimer_step {α : Type} (wait : Nat) (e : DebounceEvent α) (s : Debounced α)
    (hs : OneTimer s) : OneTimer (Debounced.step wait e s) := by
  cases e with
  | call r a => exact (oneTimer_executedFunction wait r a s hs).2
  | expire h => exact oneTimer_expire h s hs
  | wait d => exact hs

theorem oneTimer_run {α : Type} (wait : Nat) (evs : List (DebounceEvent α)) :
    ∀ s : Debounced α, OneTimer s → OneTimer (Debounced.run wait evs s) := by
  induction evs with
  | nil => intro s hs; exact hs
  | cons e es ih => intro s hs; exact ih _ (oneTimer_step wait e s hs)

theorem oneTimer_init {α : Type} : OneTimer (Debounced.init : Debounced α) := Or.inl rfl

/-- C3: in every state reachable from a fresh debounced function by any
interleaving of calls, timer expiries and passage of time, at most one timer
created by it is pending, and that timer is the one whose handle `timeout`
holds; a call leaves exactly the timer it has just created pending. -/
theorem debounce_at_most_one_pending {α : Type} (wait : Nat) (evs : List (DebounceEvent α)) :
    (Debounced.run wait evs Debounced.init).pending.length ≤ 1 ∧
    (∀ t ∈ (Debounced.run wait evs Debounced.init).pending,
        (Debounced.run wait evs Debounced.init).timeout = some t.handle) ∧
    (∀ (r : ThisVal) (a : α),
        (executedFunction wait r a (Debounced.run wait evs Debounced.init)).pending.map
            (fun t => (t.handle, t.callIdx)) =
          [((Debounced.run wait evs Debounced.init).nextHandle + 1,
            (Debounced.run wait evs Debounced.init).callCount)]) := by
  have h := oneTimer_run wait evs Debounced.init oneTimer_init
  refine ⟨?_, ?_, ?_⟩
  · rcases h with h | ⟨t, ht, -⟩ <;> simp [*]
  · intro t ht
    rcases h with h | ⟨u, hu, hto⟩
    · rw [h] at ht; simp at ht
    · rw [hu] at ht
      have : t = u := by simpa using ht
      rw [this]; exact hto
  · intro r a
    rw [(oneTimer_executedFunction wait r a _ h).1]; rfl

theorem run_callCount {α : Type} (wait : Nat) (evs : List (DebounceEvent α)) :
    ∀ s : Debounced α,
      (Debounced.run wait evs s).callCount = s.callCount + (callsOf evs).length := by
  induction evs with
  | nil => intro s; rfl
  | cons e es ih =>
    intro s
    show (Debounced.run wait es (Debounced.step wait e s)).callCount = _
    rw [ih]
    cases e with
    | call r a => simp [Debounced.step, executedFunction, callsOf]; omega
    | expire h =>
      have : (expire h s).callCount = s.callCount := by
        unfold expire; split <;> rfl
      simp [Debounced.step, callsOf, this]
    | wait d => simp [Debounced.step, callsOf]

theorem rapidInv_call {α : Type} (wait : Nat) (acc : Option Nat) (r : ThisVal) (a : α)
    (s : Debounced α) (hs : RapidInv wait acc s) (hlog : s.log = []) :
    RapidInv wait (some 0) (executedFunction wait r a s) := by
  obtain ⟨h1, -, -, -, -⟩ := hs
  obtain ⟨hp, h1'⟩ := oneTimer_executedFunction wait r a s h1
  refine ⟨h1', ?_, ?_, ?_, ?_⟩
  · intro e he
    have : (executedFunction wait r a s).log = [] := hlog
    rw [this] at he; simp at he
  · intro t ht
    rw [hp] at ht
    rw [List.mem_singleton.1 ht]
    exact ⟨rfl, 0, rfl, rfl⟩
  · intro h; cases h
  · intro _ _ _; exact hlog

theorem rapidInv_expire {α : Type} (wait : Nat) (acc : Option Nat) (h : Nat)
    (s : Debounced α) (hs : RapidInv wait acc s) : RapidInv wait acc (expire h s) := by
  unfold expire
  split
  · exact hs
  · next t hf =>
    obtain ⟨h1, h2, h3, h4, h5⟩ := hs
    obtain ⟨hp, -, hpt⟩ := oneTimer_find s h1 _ t hf
    obtain ⟨f1, f2, f3, f4, -, -⟩ := fire_of_single s t hp
    have htm : t ∈ s.pending := by rw [hp]; simp
    obtain ⟨hidx, a, hacc, hdue⟩ := h3 t htm
    have hdue' : t.due ≤ s.now := by
      simp only [Bool.and_eq_true, decide_eq_true_eq] at hpt
      exact hpt.2
    refine ⟨Or.inl f1, ?_, ?_, ?_, ?_⟩
    · intro e he
      rw [f2] at he
      rw [f4]
      rcases List.mem_append.1 he with he | he
      · exact h2 e he
      · rw [List.mem_singleton.1 he]
        exact hidx
    · intro u hu; rw [f1] at hu; simp at hu
    · intro hn; rw [hn] at hacc; cases hacc
    · intro b hb hlt
      rw [hacc] at hb
      cases hb
      omega

theorem rapidInv_wait {α : Type} (wait : Nat) (acc : Option Nat) (d : Nat)
    (s : Debounced α) (hs : RapidInv wait acc s) :
    RapidInv wait (acc.map (· + d)) { s with now := s.now + d } := by
  obtain ⟨h1, h2, h3, h4, h5⟩ := hs
  refine ⟨h1, h2, ?_, ?_, ?_⟩
  · intro t ht
    obtain ⟨hidx, a, hacc, hdue⟩ := h3 t ht
    refine ⟨hidx, a + d, by simp [hacc], ?_⟩
    show t.due + (a + d) = s.now + d + wait
    omega
  · intro hn
    cases acc with
    | none => exact h4 rfl
    | some a => simp at hn
  · intro b hb hlt
    cases acc with
    | none => simp at hb
    | some a =>
      simp at hb
      exact h5 a rfl (by omega)

theorem rapidInv_run {α : Type} (wait : Nat) (evs : List (DebounceEvent α)) :
    ∀ (acc : Option Nat) (s : Debounced α), RapidInv wait acc s → rapid wait acc evs = true →
      ∀ e ∈ (Debounced.run wait evs s).log,
        e.callIdx + 1 = (Debounced.run wait evs s).callCount := by
  induction evs with
  | nil => intro acc s hs _; exact hs.2.1
  | cons ev es ih =>
    intro acc s hs hr
    show ∀ e ∈ (Debounced.run wait es (Debounced.step wait ev s)).log,
      e.callIdx + 1 = (Debounced.run wait es (Debounced.step wait ev s)).callCount
    cases ev with
    | wait d => exact ih _ _ (rapidInv_wait wait acc d s hs) (by simpa [rapid] using hr)
    | expire h => exact ih _ _ (rapidInv_expire wait acc h s hs) (by simpa [rapid] using hr)
    | call r a =>
      cases acc with
      | none =>
        exact ih _ _ (rapidInv_call wait none r a s hs (hs.2.2.2.1 rfl))
          (by simpa [rapid] using hr)
      | some b =>
        have hr' : b < wait ∧ rapid wait (some 0) es = true := by simpa [rapid] using hr
        exact ih _ _ (rapidInv_call wait (some b) r a s hs (hs.2.2.2.2 b rfl hr'.1)) hr'.2

theorem rapidInv_init {α : Type} (wait : Nat) :
    RapidInv wait none (Debounced.init : Debounced α) := by
  refine ⟨oneTimer_init, ?_, ?_, ?_, ?_⟩
  · intro e he; simp [Debounced.init] at he
  · intro t ht; simp [Debounced.init] at ht
  · intro _; rfl
  · intro _ _ _; rfl

theorem clearTimeout_sublist {α : Type} (h : Option Nat) (l : List (Timeout α)) :
    (clearTimeout h l).Sublist l := by
  cases h with
  | none => exact List.Sublist.refl _
  | some n => exact List.filter_sublist _

theorem fire_pending {α : Type} (t : Timeout α) (s : Debounced α) (ht : t ∈ s.pending) :
    (fire t s).pending.length < s.pending.length ∧ (fire t s).pending.Sublist s.pending := by
  have h1 : (fire t s).pending.Sublist (s.pending.filter (fun u => u.handle != t.handle)) :=
    clearTimeout_sublist _ _
  have h2 : (s.pending.filter (fun u => u.handle != t.handle)).length < s.pending.length := by
    apply List.length_filter_lt_length_iff_exists.2
    exact ⟨t, ht, by simp⟩
  exact ⟨lt_of_le_of_lt h1.length_le h2, h1.trans (List.filter_sublist _)⟩

theorem getElem?_append_of_some {β : Type} (l m : List β) (i : Nat) (b : β)
    (h : l[i]? = some b) : (l ++ m)[i]? = some b := by
  obtain ⟨hlt, -⟩ := List.getElem?_eq_some.1 h
  rw [List.getElem?_append_left hlt]; exact h

theorem expire_cases {α : Type} (h : Nat) (s : Debounced α) :
    expire h s = s ∨ ∃ t ∈ s.pending, expire h s = fire t s := by
  unfold expire
  split
  · exact Or.inl rfl
  · next t hf => exact Or.inr ⟨t, List.mem_of_find?_eq_some hf, rfl⟩

/-- The call ordinal kept in timers and executions names the right call: an
execution recorded for ordinal `i` carries the arguments of the `i`-th call. -/
theorem calls_sound {α : Type} (wait : Nat) (evs : List (DebounceEvent α)) :
    ∀ (prev : List (ThisVal × α)) (s : Debounced α), s.callCount = prev.length →
      (∀ t ∈ s.pending, prev[t.callIdx]? = some (t.receiver, t.args)) →
      (∀ e ∈ s.log, ∃ r, prev[e.callIdx]? = some (r, e.args)) →
      ∀ e ∈ (Debounced.run wait evs s).log,
        ∃ r, (prev ++ callsOf evs)[e.callIdx]? = some (r, e.args) := by
  induction evs with
  | nil =>
    intro prev s _ _ hl e he
    simpa [callsOf] using hl e he
  | cons ev es ih =>
    intro prev s hc hp hl
    show ∀ e ∈ (Debounced.run wait es (Debounced.step wait ev s)).log, _
    cases ev with
    | wait d => exact ih prev _ hc hp hl
    | expire h =>
      rcases expire_cases h s with hs | ⟨t, ht, hs⟩
      · simp only [Debounced.step, hs, callsOf]
        exact ih prev _ hc hp hl
      · simp only [Debounced.step, hs, callsOf]
        refine ih prev _ hc ?_ ?_
        · intro u hu
          exact hp u ((fire_pending t s ht).2.subset hu)
        · intro e he
          rcases List.mem_append.1 he with he | he
          · exact hl e he
          · rw [List.mem_singleton.1 he]
            exact ⟨t.receiver, hp t ht⟩
    | call r a =>
      have happ : prev ++ callsOf (DebounceEvent.call r a :: es) =
          (prev ++ [(r, a)]) ++ callsOf es := by simp [callsOf]
      rw [happ]
      refine ih (prev ++ [(r, a)]) _ ?_ ?_ ?_
      · simp [Debounced.step, executedFunction, hc]
      · intro u hu
        rcases List.mem_append.1 hu with hu | hu
        · exact getElem?_append_of_some _ _ _ _
            (hp u ((clearTimeout_sublist s.timeout s.pending).subset hu))
        · rw [List.mem_singleton.1 hu]
          show (prev ++ [(r, a)])[s.callCount]? = some (r, a)
          rw [hc]; exact List.getElem?_concat_length prev (r, a)
      · intro e he
        obtain ⟨r', hr'⟩ := hl e he
        exact ⟨r', getElem?_append_of_some _ _ _ _ hr'⟩

/-- C1: for the function returned by `debounce(func, wait)`, in every run in
which each call follows the previous call by less than `wait` milliseconds
(timers expiring whenever they are due or later, in any interleaving), every
execution of `func` is on behalf of the last call of the run and carries that
call's arguments: no superseded call is ever executed. -/
theorem debounce_only_last_call_executes {α : Type} (wait : Nat)
    (evs : List (DebounceEvent α)) (h : rapid wait none evs = true) :
    ∀ e ∈ (Debounced.run wait evs Debounced.init).log,
      e.callIdx + 1 = (callsOf evs).length ∧
      ∃ r, (callsOf evs)[e.callIdx]? = some (r, e.args) := by
  intro e he
  have h1 := rapidInv_run wait evs none Debounced.init (rapidInv_init wait) h e he
  rw [run_callCount] at h1
  have h2 := calls_sound wait evs [] Debounced.init rfl
    (by intro t ht; simp [Debounced.init] at ht)
    (by intro x hx; simp [Debounced.init] at hx) e he
  exact ⟨by simpa [Debounced.init] using h1, by simpa using h2⟩

/-- Witness for C1: in the sample run `func` runs once, for the third call. -/
theorem debounce_only_last_call_executes_witness :
    rapid 300 none sampleCalls = true ∧
    (Debounced.run 300 sampleCalls Debounced.init).log =
      [{ time := 500, callIdx := 2, thisArg := ThisVal.defaultThis, args := 30 }] ∧
    ∀ e ∈ (Debounced.run 300 sampleCalls Debounced.init).log,
      e.callIdx + 1 = (callsOf sampleCalls).length ∧
      ∃ r, (callsOf sampleCalls)[e.callIdx]? = some (r, e.args) :=
  ⟨by decide, by decide, debounce_only_last_call_executes 300 sampleCalls (by decide)⟩

theorem earliest_eq_none {α : Type} (l : List (Timeout α)) (h : earliest l = none) : l = [] := by
  cases l with
  | nil => rfl
  | cons t ts =>
    simp only [earliest] at h
    split at h
    · cases h
    · split at h <;> cases h

theorem earliest_spec {α : Type} (l : List (Timeout α)) :
    ∀ t, earliest l = some t → t ∈ l ∧ ∀ u ∈ l, t.due ≤ u.due := by
  induction l with
  | nil => intro t h; simp [earliest] at h
  | cons x xs ih =>
    intro t h
    simp only [earliest] at h
    split at h
    · next hn =>
      have hxs := earliest_eq_none xs hn
      cases h
      subst hxs
      simp
    · next u hu =>
      obtain ⟨hum, hmin⟩ := ih u hu
      split at h
      · next hle =>
        cases h
        refine ⟨by simp, ?_⟩
        intro v hv
        rcases List.mem_cons.1 hv with hv | hv
        · rw [hv]
        · exact le_trans hle (hmin v hv)
      · next hle =>
        cases h
        refine ⟨List.mem_cons_of_mem _ hum, ?_⟩
        intro v hv
        rcases List.mem_cons.1 hv with hv | hv
        · rw [hv]; omega
        · exact hmin v hv

theorem elapseTo_no_due_left {α : Type} (target : Nat) :
    ∀ (fuel : Nat) (s : Debounced α), s.pending.length ≤ fuel →
      ∀ u ∈ (Debounced.elapseTo target fuel s).pending, target < u.due := by
  intro fuel
  induction fuel with
  | zero =>
    intro s hs u hu
    have : s.pending = [] := List.length_eq_zero.1 (Nat.le_zero.1 hs)
    simp [Debounced.elapseTo, this] at hu
  | succ n ih =>
    intro s hs u hu
    simp only [Debounced.elapseTo] at hu
    split at hu
    · next hn =>
      have := earliest_eq_none _ hn
      simp [this] at hu
    · next t ht =>
      obtain ⟨htm, hmin⟩ := earliest_spec _ t ht
      split at hu
      · have hlt := (fire_pending t { s with now := max s.now t.due } htm).1
        exact ih _ (by simp only at hlt; omega) u hu
      · have := hmin u hu
        omega

/-- Punctual passage of time is complete: after `elapse d` no pending timer is
due at or before the new instant. -/
theorem elapse_no_due_left {α : Type} (d : Nat) (s : Debounced α) :
    ∀ u ∈ (Debounced.elapse d s).pending, s.now + d < u.due :=
  elapseTo_no_due_left (s.now + d) s.pending.length s (le_refl _)

/-- A call followed by at least `wait` milliseconds without another call, timers
being punctual: `func` is executed exactly once more, at `wait` after the call,
with the arguments of that call and with the default receiver. -/
theorem quiet_period {α : Type} (wait d : Nat) (hd : wait ≤ d) (r : ThisVal) (a : α)
    (s : Debounced α) (hs : OneTimer s) :
    (Debounced.elapse d (executedFunction wait r a s)).log =
        s.log ++ [{ time := s.now + wait, callIdx := s.callCount,
                    thisArg := ThisVal.defaultThis, args := a }] ∧
      (Debounced.elapse d (executedFunction wait r a s)).pending = [] := by
  obtain ⟨hp, -⟩ := oneTimer_executedFunction wait r a s hs
  have hnow : (executedFunction wait r a s).now = s.now := rfl
  have hlog : (executedFunction wait r a s).log = s.log := rfl
  have hto : (executedFunction wait r a s).timeout = some (s.nextHandle + 1) := rfl
  generalize executedFunction wait r a s = s1 at hp hnow hlog hto
  have hmax : max s1.now (s.now + wait) = s.now + wait := by rw [hnow]; omega
  simp [Debounced.elapse, Debounced.elapseTo, hp, earliest, fire, later, clearTimeout, hnow,
    hlog, hto, hd]

/-- A call followed by less than `wait` milliseconds: `func` has not been
executed for it, its timer is still pending. -/
theorem quiet_period_too_short {α : Type} (wait d : Nat) (hd : d < wait) (r : ThisVal) (a : α)
    (s : Debounced α) (hs : OneTimer s) :
    (Debounced.elapse d (executedFunction wait r a s)).log = s.log := by
  obtain ⟨hp, -⟩ := oneTimer_executedFunction wait r a s hs
  have hnow : (executedFunction wait r a s).now = s.now := rfl
  have hlog : (executedFunction wait r a s).log = s.log := rfl
  generalize executedFunction wait r a s = s1 at hp hnow hlog
  have hd' : ¬ wait ≤ d := by omega
  simp [Debounced.elapse, Debounced.elapseTo, hp, earliest, hnow, hlog, hd']

/-- C2: an input event on the search box (element `1`, current value "ab")
followed by 300 ms of silence.  The wrapped handler is executed exactly once,
with the arguments of that call, but `later` calls it as `func(...args)`: its
receiver is the default one, not the input element.  The query is therefore
read through the default receiver, whatever the value of the input element:
given the element the handler would search for "ab"; as called it does not. -/
theorem debounced_search_drops_input_element :
    (Debounced.elapse 300
        (executedFunction searchWait (ThisVal.element 1) () Debounced.init)).log =
      [{ time := 300, callIdx := 0, thisArg := ThisVal.defaultThis, args := () }] ∧
    (∀ val : ThisVal → Option JSString,
      searchCalls val (Debounced.elapse 300
          (executedFunction searchWait (ThisVal.element 1) () Debounced.init)) =
        searchInputHandler val ThisVal.defaultThis) ∧
    searchInputHandler (sampleVal "ab".toList) (ThisVal.element 1) =
      [Callee.performSearch "ab".toList] ∧
    searchCalls (sampleVal "ab".toList) (Debounced.elapse 300
        (executedFunction searchWait (ThisVal.element 1) () Debounced.init)) = [] := by
  have h : (Debounced.elapse 300
      (executedFunction searchWait (ThisVal.element 1) () Debounced.init)).log =
      [{ time := 300, callIdx := 0, thisArg := ThisVal.defaultThis, args := () }] := by
    decide
  refine ⟨h, ?_, by decide, ?_⟩
  · intro val
    simp [searchCalls, h]
  · simp [searchCalls, h, searchInputHandler, sampleVal]

theorem log_default_receiver {α : Type} (wait : Nat) (evs : List (DebounceEvent α)) :
    ∀ s : Debounced α, (∀ e ∈ s.log, e.thisArg = ThisVal.defaultThis) →
      ∀ e ∈ (Debounced.run wait evs s).log, e.thisArg = ThisVal.defaultThis := by
  induction evs with
  | nil => intro s hs; exact hs
  | cons ev es ih =>
    intro s hs
    show ∀ e ∈ (Debounced.run wait es (Debounced.step wait ev s)).log, _
    apply ih
    cases ev with
    | call r a => exact hs
    | wait d => exact hs
    | expire h =>
      rcases expire_cases h s with hx | ⟨t, -, hx⟩
      · simp only [Debounced.step, hx]; exact hs
      · simp only [Debounced.step, hx]
        intro e he
        simp only [fire, later] at he
        rcases List.mem_append.1 he with he | he
        · exact hs e he
        · rw [List.mem_singleton.1 he]

theorem searchCalls_append_one {α : Type} (val : ThisVal → Option JSString)
    (s s1 : Debounced α) (inv : Invocation α) (h : s1.log = s.log ++ [inv]) :
    searchCalls val s1 = searchCalls val s ++ searchInputHandler val inv.thisArg := by
  simp [searchCalls, h]

theorem searchCalls_of_log_eq {α : Type} (val : ThisVal → Option JSString)
    (s s1 : Debounced α) (h : s1.log = s.log) : searchCalls val s1 = searchCalls val s := by
  simp [searchCalls, h]

theorem searchCalls_domVal {α : Type} (values : Nat → Option JSString) (s : Debounced α)
    (h : ∀ e ∈ s.log, e.thisArg = ThisVal.defaultThis) : searchCalls (domVal values) s = [] := by
  simp only [searchCalls, List.flatMap_eq_nil_iff]
  intro e he
  simp [searchInputHandler, h e he, domVal]

/-- C4, as stated, fails: the input element `1` holds "a" (one character) and an
input event arrives.  Right after the event the handler has not been run and
`hideSearchResults` has not been called; the same holds 299 ms later. -/
theorem short_query_not_cleared_synchronously :
    jsLength "a".toList < 2 ∧
    domVal (fun _ => some "a".toList) (ThisVal.element 1) = some "a".toList ∧
    (executedFunction searchWait (ThisVal.element 1) () Debounced.init).log = [] ∧
    Callee.hideSearchResults ∉ searchCalls (domVal (fun _ => some "a".toList))
      (executedFunction searchWait (ThisVal.element 1) () Debounced.init) ∧
    (Debounced.elapse 299
      (executedFunction searchWait (ThisVal.element 1) () Debounced.init)).log = [] ∧
    Callee.hideSearchResults ∉ searchCalls (domVal (fun _ => some "a".toList))
      (Debounced.elapse 299
        (executedFunction searchWait (ThisVal.element 1) () Debounced.init)) := by
  have h299 : (Debounced.elapse 299
      (executedFunction searchWait (ThisVal.element 1) () Debounced.init)).log = [] := by
    decide
  refine ⟨by decide, rfl, rfl, ?_, h299, ?_⟩
  · simp [searchCalls, executedFunction, Debounced.init]
  · simp [searchCalls, h299]

/-- C4, amended: in every reachable state of the debounced search handler,
whatever the query in the input, an input event runs nothing synchronously: it
only restarts the 300 ms timer.  The handler is not executed, and so neither
`hideSearchResults` nor `performSearch` is called, at the event or at any time
before the timer is due; once 300 ms have passed without another event the
handler has been executed exactly once more, with the default receiver, and
what it then calls is what its body calls for that receiver. -/
theorem input_event_only_restarts_timer {α : Type} (evs : List (DebounceEvent α))
    (r : ThisVal) (a : α) :
    (executedFunction searchWait r a (Debounced.run searchWait evs Debounced.init)).log =
      (Debounced.run searchWait evs Debounced.init).log ∧
    (∀ d, d < searchWait →
      (Debounced.elapse d
        (executedFunction searchWait r a (Debounced.run searchWait evs Debounced.init))).log =
      (Debounced.run searchWait evs Debounced.init).log) ∧
    (∀ d, searchWait ≤ d →
      (Debounced.elapse d
        (executedFunction searchWait r a (Debounced.run searchWait evs Debounced.init))).log =
      (Debounced.run searchWait evs Debounced.init).log ++
        [{ time := (Debounced.run searchWait evs Debounced.init).now + searchWait,
           callIdx := (Debounced.run searchWait evs Debounced.init).callCount,
           thisArg := ThisVal.defaultThis, args := a }]) ∧
    (∀ val : ThisVal → Option JSString,
      searchCalls val
          (executedFunction searchWait r a (Debounced.run searchWait evs Debounced.init)) =
        searchCalls val (Debounced.run searchWait evs Debounced.init) ∧
      (∀ d, d < searchWait →
        searchCalls val (Debounced.elapse d
          (executedFunction searchWait r a (Debounced.run searchWait evs Debounced.init))) =
        searchCalls val (Debounced.run searchWait evs Debounced.init)) ∧
      (∀ d, searchWait ≤ d →
        searchCalls val (Debounced.elapse d
          (executedFunction searchWait r a (Debounced.run searchWait evs Debounced.init))) =
        searchCalls val (Debounced.run searchWait evs Debounced.init) ++
          searchInputHandler val ThisVal.defaultThis)) := by
  have hs := oneTimer_run searchWait evs Debounced.init oneTimer_init
  have h2 : ∀ d, d < searchWait →
      (Debounced.elapse d
        (executedFunction searchWait r a (Debounced.run searchWait evs Debounced.init))).log =
      (Debounced.run searchWait evs Debounced.init).log :=
    fun d hd => quiet_period_too_short searchWait d hd r a _ hs
  have h3 : ∀ d, searchWait ≤ d →
      (Debounced.elapse d
        (executedFunction searchWait r a (Debounced.run searchWait evs Debounced.init))).log =
      (Debounced.run searchWait evs Debounced.init).log ++
        [{ time := (Debounced.run searchWait evs Debounced.init).now + searchWait,
           callIdx := (Debounced.run searchWait evs Debounced.init).callCount,
           thisArg := ThisVal.defaultThis, args := a }] :=
    fun d hd => (quiet_period searchWait d hd r a _ hs).1
  refine ⟨rfl, h2, h3, fun val => ⟨searchCalls_of_log_eq val _ _ rfl, ?_, ?_⟩⟩
  · intro d hd
    exact searchCalls_of_log_eq val _ _ (h2 d hd)
  · intro d hd
    exact searchCalls_append_one val _ _ _ (h3 d hd)

/-- C5: the input element `1` holds "ab" (two characters), an input event
arrives and 300 ms pass.  The handler has been executed once, with the default
receiver, through which no query is read: `performSearch` has not been called,
and no request has been issued.  More generally, in no run of the debounced
search handler, whatever the values of the elements of the page, is
`performSearch` (or anything else) ever called. -/
theorem performSearch_never_called :
    2 ≤ jsLength "ab".toList ∧
    domVal (fun _ => some "ab".toList) (ThisVal.element 1) = some "ab".toList ∧
    (Debounced.elapse 300
        (executedFunction searchWait (ThisVal.element 1) () Debounced.init)).log =
      [{ time := 300, callIdx := 0, thisArg := ThisVal.defaultThis, args := () }] ∧
    Callee.performSearch "ab".toList ∉ searchCalls (domVal (fun _ => some "ab".toList))
      (Debounced.elapse 300
        (executedFunction searchWait (ThisVal.element 1) () Debounced.init)) ∧
    (searchCalls (domVal (fun _ => some "ab".toList))
      (Debounced.elapse 300
        (executedFunction searchWait (ThisVal.element 1) () Debounced.init))).flatMap
      Callee.effects = [] ∧
    (∀ (values : Nat → Option JSString) (evs : List (DebounceEvent Unit)),
      searchCalls (domVal values) (Debounced.run searchWait evs Debounced.init) = []) := by
  have h : (Debounced.elapse 300
      (executedFunction searchWait (ThisVal.element 1) () Debounced.init)).log =
      [{ time := 300, callIdx := 0, thisArg := ThisVal.defaultThis, args := () }] := by
    decide
  have hc : searchCalls (domVal (fun _ => some "ab".toList))
      (Debounced.elapse 300
        (executedFunction searchWait (ThisVal.element 1) () Debounced.init)) = [] := by
    apply searchCalls_domVal
    intro e he
    rw [h] at he
    rw [List.mem_singleton.1 he]
  refine ⟨by decide, rfl, h, by rw [hc]; simp, by rw [hc]; rfl, ?_⟩
  intro values evs
  apply searchCalls_domVal
  exact log_default_receiver searchWait evs Debounced.init
    (by intro e he; simp [Debounced.init] at he)

theorem isTrimChar_utf16Size (c : Char) (h : isTrimChar c = true) : utf16Size c = 1 := by
  have : c.toNat < 65536 := by
    simp only [isTrimChar, Bool.or_eq_true, beq_iff_eq, Bool.and_eq_true,
      decide_eq_true_eq] at h
    omega
  simp [utf16Size, this]

theorem trim_eq_nil (q : JSString) (h : trim q = []) : ∀ c ∈ q, isTrimChar c = true := by
  unfold trim at h
  rw [List.reverse_eq_nil_iff, List.dropWhile_eq_nil_iff] at h
  by_cases hq : q.dropWhile isTrimChar = []
  · exact List.dropWhile_eq_nil_iff.1 hq
  · exfalso
    have hhead := List.head_dropWhile_not isTrimChar q hq
    have := h _ (List.mem_reverse.2 (List.head_mem hq))
    rw [this] at hhead
    exact absurd hhead (by simp)

theorem jsLength_of_blank (q : JSString) (h : ∀ c ∈ q, isTrimChar c = true) :
    jsLength q = q.length := by
  induction q with
  | nil => rfl
  | cons c cs ih =>
    have hc := isTrimChar_utf16Size c (h c (by simp))
    have := ih (fun d hd => h d (List.mem_cons_of_mem _ hd))
    simp only [jsLength, List.map_cons, List.sum_cons, List.length_cons] at this ⊢
    omega

theorem searchInputHandler_of_query (val : ThisVal → Option JSString) (q : JSString)
    (hval : ∀ this q', val this = some q' → q' = q) (this : ThisVal) :
    searchInputHandler val this = [] ∨
      (jsLength q < 2 ∧ searchInputHandler val this = [Callee.hideSearchResults]) ∨
      (2 ≤ jsLength q ∧ searchInputHandler val this = [Callee.performSearch q]) := by
  cases hv : val this with
  | none => left; simp [searchInputHandler, hv]
  | some q' =>
    have hq := hval this q' hv
    subst hq
    by_cases hl : 2 ≤ jsLength q'
    · right; right; exact ⟨hl, by simp [searchInputHandler, hv, hl]⟩
    · right; left; exact ⟨by omega, by simp [searchInputHandler, hv, hl]⟩

/-- C6, as stated, fails: the input element `1` holds two spaces, a query that
is empty after trimming; an input event arrives and 300 ms pass.  The handler
has been executed once and the clear-results action has not been invoked. -/
theorem whitespace_query_not_cleared :
    trim "  ".toList = [] ∧
    domVal (fun _ => some "  ".toList) (ThisVal.element 1) = some "  ".toList ∧
    (Debounced.elapse 300
        (executedFunction searchWait (ThisVal.element 1) () Debounced.init)).log =
      [{ time := 300, callIdx := 0, thisArg := ThisVal.defaultThis, args := () }] ∧
    Callee.hideSearchResults ∉ searchCalls (domVal (fun _ => some "  ".toList))
      (Debounced.elapse 300
        (executedFunction searchWait (ThisVal.element 1) () Debounced.init)) := by
  have h : (Debounced.elapse 300
      (executedFunction searchWait (ThisVal.element 1) () Debounced.init)).log =
      [{ time := 300, callIdx := 0, thisArg := ThisVal.defaultThis, args := () }] := by
    decide
  refine ⟨by decide, rfl, h, ?_⟩
  simp [searchCalls, h, searchInputHandler, domVal]

/-- C6, amended: the handler does not trim; it decides by the length of the
query as read.  In a page where every successful read of the query yields `q`
(reads may also fail), `q` being empty after trimming, in every run of the
debounced search handler: if `q` is the empty string or a single white-space
character no search is dispatched (the only call the handler can make is
`hideSearchResults`); if `q` is a white-space-only string of two or more
characters the clear-results action is not invoked (the only call the handler
can make is `performSearch` with `q`). -/
theorem blank_query_by_length {α : Type} (val : ThisVal → Option JSString) (q : JSString)
    (hval : ∀ this q', val this = some q' → q' = q) (hblank : trim q = [])
    (evs : List (DebounceEvent α)) :
    (q.length ≤ 1 →
      ∀ c ∈ searchCalls val (Debounced.run searchWait evs Debounced.init),
        c = Callee.hideSearchResults) ∧
    (2 ≤ q.length →
      ∀ c ∈ searchCalls val (Debounced.run searchWait evs Debounced.init),
        c = Callee.performSearch q) := by
  have hl := jsLength_of_blank q (trim_eq_nil q hblank)
  have key : ∀ c ∈ searchCalls val (Debounced.run searchWait evs Debounced.init),
      ∃ this, c ∈ searchInputHandler val this := by
    intro c hc
    obtain ⟨inv, -, hin⟩ := List.mem_flatMap.1 hc
    exact ⟨inv.thisArg, hin⟩
  constructor
  · intro hlen c hc
    obtain ⟨this, hin⟩ := key c hc
    rcases searchInputHandler_of_query val q hval this with h | ⟨-, h⟩ | ⟨h2, -⟩
    · rw [h] at hin; simp at hin
    · rw [h] at hin; exact List.mem_singleton.1 hin
    · omega
  · intro hlen c hc
    obtain ⟨this, hin⟩ := key c hc
    rcases searchInputHandler_of_query val q hval this with h | ⟨h1, -⟩ | ⟨-, h⟩
    · rw [h] at hin; simp at hin
    · omega
    · rw [h] at hin; exact List.mem_singleton.1 hin

/-- Witness for C6 (amended): every element of the page holds one space, and
reads through the default receiver fail; in the sample run of three input
events no search is dispatched. -/
theorem blank_query_by_length_witness :
    trim " ".toList = [] ∧
    (∀ this q', domVal (fun _ => some " ".toList) this = some q' → q' = " ".toList) ∧
    ∀ c ∈ searchCalls (domVal (fun _ => some " ".toList))
        (Debounced.run searchWait sampleCalls Debounced.init),
      c = Callee.hideSearchResults :=
  have hval : ∀ this q', domVal (fun _ => some " ".toList) this = some q' → q' = " ".toList := by
    intro this q' h
    cases this with
    | defaultThis => simp [domVal] at h
    | element id => simpa [domVal] using h.symm
  ⟨by decide, hval,
    (blank_query_by_length (domVal (fun _ => some " ".toList)) " ".toList hval (by decide)
      sampleCalls).1 (by decide)⟩

/-! ## `StatusAutoRefresh` -/

namespace StatusAutoRefresh

theorem inv_fresh (page : Page) : PollerInv (fresh page) := by
  refine ⟨rfl, Or.inl ⟨rfl, rfl⟩, ?_, ?_, ?_⟩
  · intro r hr; simp [fresh] at hr
  · simp [fresh]
  · intro _; exact ⟨rfl, rfl, rfl⟩

theorem inv_startAutoRefresh (s : StatusAutoRefresh) (hs : PollerInv s)
    (hnone : s.interval = none) : PollerInv (startAutoRefresh s) := by
  obtain ⟨h1, h2, h3, h4, h5⟩ := hs
  have hint : s.intervals = [] := by
    rcases h2 with ⟨-, h⟩ | ⟨i, -, hi, -⟩
    · exact h
    · rw [hnone] at hi; cases hi
  refine ⟨h1, Or.inr ⟨⟨s.nextHandle + 1, s.refreshRate, s.now + s.refreshRate⟩, ?_, rfl,
    by simp, h1, ?_, ?_⟩, h3, h4, ?_⟩
  · simp [startAutoRefresh, hint]
  · show 30000 ≤ s.now + s.refreshRate
    omega
  · intro r hr
    have := (h3 r hr).2.2
    show r.time + 30000 ≤ s.now + s.refreshRate
    omega
  · intro h; simp [startAutoRefresh] at h

theorem inv_pauseAutoRefresh (s : StatusAutoRefresh) (hs : PollerInv s) :
    PollerInv (pauseAutoRefresh s) ∧ (pauseAutoRefresh s).interval = none ∧
      (pauseAutoRefresh s).intervals = [] := by
  obtain ⟨h1, h2, h3, h4, h5⟩ := hs
  unfold pauseAutoRefresh
  rcases h2 with ⟨hn, hi⟩ | ⟨i, hi, hh, hnz, hper, hdue⟩
  · have ht : ¬ (truthy s.interval = true) := by simp [truthy, hn]
    rw [if_neg ht]
    exact ⟨⟨h1, Or.inl ⟨hn, hi⟩, h3, h4, h5⟩, hn, hi⟩
  · have hc : clearInterval s.interval s.intervals = [] := by
      simp [clearInterval, hh, hi]
    have ht : truthy s.interval = true := by simp [truthy, hh, hnz]
    rw [if_pos ht]
    refine ⟨⟨h1, Or.inl ⟨rfl, hc⟩, h3, h4, ?_⟩, rfl, hc⟩
    intro ha
    have := (h5 ha).2.1
    rw [hi] at this; cases this

theorem inv_resumeAutoRefresh (s : StatusAutoRefresh) (hs : PollerInv s) :
    PollerInv (resumeAutoRefresh s) := by
  unfold resumeAutoRefresh
  split
  · next hc =>
    apply inv_startAutoRefresh s hs
    simp only [Bool.and_eq_true, Bool.not_eq_true'] at hc
    rcases hs.2.1 with ⟨hn, -⟩ | ⟨i, -, hh, hnz, -⟩
    · exact hn
    · have := hc.2
      simp [truthy, hh, hnz] at this
  · exact hs

theorem inv_visibilityListener (s : StatusAutoRefresh) (hs : PollerInv s) :
    PollerInv (visibilityListener s) := by
  unfold visibilityListener
  split
  · exact (inv_pauseAutoRefresh s hs).1
  · exact inv_resumeAutoRefresh s hs

theorem inv_iterate (n : Nat) :
    ∀ s : StatusAutoRefresh, PollerInv s → PollerInv (Nat.iterate visibilityListener n s) := by
  induction n with
  | zero => intro s hs; exact hs
  | succ n ih => intro s hs; exact ih _ (inv_visibilityListener s hs)

theorem inv_tick (h : Nat) (s : StatusAutoRefresh) (hs : PollerInv s) : PollerInv (tick h s) := by
  unfold tick
  split
  · exact hs
  · next j hf =>
    obtain ⟨h1, h2, h3, h4, h5⟩ := hs
    have hjm := List.mem_of_find?_eq_some hf
    have hjp := List.find?_some hf
    rcases h2 with ⟨-, hi⟩ | ⟨i, hi, hh, hnz, hper, hdue30, hdue⟩
    · rw [hi] at hjm; simp at hjm
    · rw [hi] at hjm
      have hji : j = i := List.mem_singleton.1 hjm
      subst hji
      simp only [Bool.and_eq_true, beq_iff_eq, decide_eq_true_eq] at hjp
      have hmap : s.intervals.map (fun k =>
          if k.handle == h then { k with due := s.now + k.period } else k) =
          [{ j with due := s.now + j.period }] := by
        simp [hi, hjp.1]
      unfold intervalCallback
      by_cases hhid : s.hidden = true
      · have hc : ¬ ((!s.hidden) = true) := by simp [hhid]
        rw [if_neg hc]
        refine ⟨h1, Or.inr ⟨_, hmap, hh, hnz, hper, ?_, ?_⟩, h3, h4, ?_⟩
        · show 30000 ≤ s.now + j.period
          omega
        · intro r hr
          have := (h3 r hr).2.2
          show r.time + 30000 ≤ s.now + j.period
          omega
        · intro ha
          have := (h5 ha).2.1
          rw [hi] at this; cases this
      · have hvis : s.hidden = false := by simpa using hhid
        have hc : (!s.hidden) = true := by simp [hvis]
        rw [if_pos hc]
        have hnew : ∀ r ∈ s.refreshes ++ [({ time := s.now, hidden := s.hidden } : Refresh)],
            r.hidden = false ∧ 30000 ≤ r.time ∧ r.time ≤ s.now := by
          intro r hr
          rcases List.mem_append.1 hr with hr | hr
          · exact h3 r hr
          · rw [List.mem_singleton.1 hr]
            exact ⟨hvis, by show 30000 ≤ s.now; omega, le_refl _⟩
        refine ⟨h1, Or.inr ⟨_, hmap, hh, hnz, hper, ?_, ?_⟩, hnew, ?_, ?_⟩
        · show 30000 ≤ s.now + j.period
          omega
        · intro r hr
          have := (hnew r hr).2.2
          show r.time + 30000 ≤ s.now + j.period
          omega
        · show (s.refreshes ++ [({ time := s.now, hidden := s.hidden } : Refresh)]).Pairwise _
          rw [List.pairwise_append]
          refine ⟨h4, List.pairwise_singleton _ _, ?_⟩
          intro a ha b hb
          rw [List.mem_singleton.1 hb]
          have := hdue a ha
          show a.time + 30000 ≤ s.now
          omega
        · intro ha
          have := (h5 ha).2.1
          rw [hi] at this; cases this

theorem inv_step (e : PollerEvent) (s : StatusAutoRefresh) (hs : PollerInv s) :
    PollerInv (step e s) := by
  cases e with
  | visibilityChange hidden =>
    exact inv_iterate _ _ hs
  | tick h => exact inv_tick h s hs
  | wait d =>
    obtain ⟨h1, h2, h3, h4, h5⟩ := hs
    refine ⟨h1, h2, ?_, h4, h5⟩
    intro r hr
    obtain ⟨a, b, c⟩ := h3 r hr
    exact ⟨a, b, by show r.time ≤ s.now + d; omega⟩

theorem inv_run (evs : List PollerEvent) :
    ∀ s : StatusAutoRefresh, PollerInv s → PollerInv (run evs s) := by
  induction evs with
  | nil => intro s hs; exact hs
  | cons e es ih => intro s hs; exact ih _ (inv_step e s hs)

theorem new_cases (toLowerCase : JSString → JSString) (page : Page) :
    (StatusAutoRefresh.new toLowerCase page = startAutoRefresh (fresh page) ∧
      includes page.pathname "/request/track".toList = true ∧
      ∃ text, page.statusBadge = some text ∧
        activeStatuses.any (fun a => includes (toLowerCase (trim text)) a) = true) ∨
    (StatusAutoRefresh.new toLowerCase page = fresh page ∧
      ¬ (includes page.pathname "/request/track".toList = true ∧
        ∃ text, page.statusBadge = some text ∧
          activeStatuses.any (fun a => includes (toLowerCase (trim text)) a) = true)) := by
  cases hb : page.statusBadge with
  | none =>
    right
    exact ⟨by simp [StatusAutoRefresh.new, init, hb], by simp⟩
  | some text =>
    by_cases hp : includes page.pathname "/request/track".toList = true
    · by_cases ha : activeStatuses.any (fun a => includes (toLowerCase (trim text)) a) = true
      · left
        exact ⟨by simp only [StatusAutoRefresh.new, init, hb, hp, ha, if_true],
          hp, text, rfl, ha⟩
      · right
        refine ⟨by simp only [StatusAutoRefresh.new, init, hb, hp, ha, if_true]; simp, ?_⟩
        rintro ⟨-, t, ht, hta⟩
        cases ht
        exact ha hta
    · right
      exact ⟨by simp only [StatusAutoRefresh.new, init, hb, hp]; simp, fun h => hp h.1⟩

theorem inv_new (toLowerCase : JSString → JSString) (page : Page) :
    PollerInv (StatusAutoRefresh.new toLowerCase page) := by
  rcases new_cases toLowerCase page with ⟨h, -⟩ | ⟨h, -⟩
  · rw [h]; exact inv_startAutoRefresh _ (inv_fresh page) rfl
  · rw [h]; exact inv_fresh page

theorem includes_iff (s pat : JSString) : includes s pat = true ↔ pat <:+: s := by
  induction s with
  | nil => simp [includes, List.isEmpty_iff]
  | cons c cs ih =>
    simp only [includes, Bool.or_eq_true, List.isPrefixOf_iff_prefix, ih, List.infix_cons_iff]

theorem includes_self (s : JSString) : includes s s = true :=
  (includes_iff s s).2 (List.infix_refl s)

theorem idle_step (e : PollerEvent) (s : StatusAutoRefresh)
    (h : s.isActive = false ∧ s.interval = none ∧ s.intervals = [] ∧ s.listeners = 0 ∧
      s.refreshes = []) :
    (step e s).isActive = false ∧ (step e s).interval = none ∧ (step e s).intervals = [] ∧
      (step e s).listeners = 0 ∧ (step e s).refreshes = [] := by
  obtain ⟨h1, h2, h3, h4, h5⟩ := h
  cases e with
  | visibilityChange hidden =>
    have hv : step (PollerEvent.visibilityChange hidden) s = { s with hidden := hidden } := by
      simp [step, dispatchVisibilityChange, h4]
    rw [hv]
    exact ⟨h1, h2, h3, h4, h5⟩
  | tick k =>
    have hv : step (PollerEvent.tick k) s = s := by
      simp [step, tick, h3]
    rw [hv]
    exact ⟨h1, h2, h3, h4, h5⟩
  | wait d => exact ⟨h1, h2, h3, h4, h5⟩

theorem idle_run (evs : List PollerEvent) :
    ∀ s : StatusAutoRefresh,
      (s.isActive = false ∧ s.interval = none ∧ s.intervals = [] ∧ s.listeners = 0 ∧
        s.refreshes = []) →
      (run evs s).isActive = false ∧ (run evs s).interval = none ∧
        (run evs s).intervals = [] ∧ (run evs s).listeners = 0 ∧ (run evs s).refreshes = [] := by
  induction evs with
  | nil => intro s hs; exact hs
  | cons e es ih => intro s hs; exact ih _ (idle_step e s hs)

theorem active_visibilityListener (s : StatusAutoRefresh) (h : s.isActive = true) :
    (visibilityListener s).isActive = true := by
  unfold visibilityListener pauseAutoRefresh resumeAutoRefresh
  split
  · split <;> exact h
  · split
    · rfl
    · exact h

theorem active_iterate (n : Nat) :
    ∀ s : StatusAutoRefresh, s.isActive = true →
      (Nat.iterate visibilityListener n s).isActive = true := by
  induction n with
  | zero => intro s hs; exact hs
  | succ n ih => intro s hs; exact ih _ (active_visibilityListener s hs)

theorem active_step (e : PollerEvent) (s : StatusAutoRefresh) (h : s.isActive = true) :
    (step e s).isActive = true := by
  cases e with
  | visibilityChange hidden => exact active_iterate _ _ h
  | tick k =>
    simp only [step, tick]
    split
    · exact h
    · unfold intervalCallback
      split <;> exact h
  | wait d => exact h

theorem active_run (evs : List PollerEvent) :
    ∀ s : StatusAutoRefresh, s.isActive = true → (run evs s).isActive = true := by
  induction evs with
  | nil => intro s hs; exact hs
  | cons e es ih => intro s hs; exact ih _ (active_step e s hs)

theorem new_idle (toLowerCase : JSString → JSString) (page : Page)
    (h : (StatusAutoRefresh.new toLowerCase page).isActive = false) :
    StatusAutoRefresh.new toLowerCase page = fresh page := by
  rcases new_cases toLowerCase page with ⟨hn, -⟩ | ⟨hn, -⟩
  · rw [hn] at h; simp [startAutoRefresh] at h
  · exact hn

/-- C7: over every sequence of timer ticks, visibility changes and passage of
time after construction, any two invocations of `refreshStatus` are at least
30000 ms apart, every invocation happens while the page is visible (and not
before 30000 ms have passed), and an instance that `init` did not start never
invokes it. -/
theorem refresh_at_most_once_per_period (toLowerCase : JSString → JSString) (page : Page)
    (evs : List PollerEvent) :
    (run evs (StatusAutoRefresh.new toLowerCase page)).refreshes.Pairwise
      (fun a b => a.time + 30000 ≤ b.time) ∧
    (∀ r ∈ (run evs (StatusAutoRefresh.new toLowerCase page)).refreshes,
      r.hidden = false ∧ 30000 ≤ r.time) ∧
    ((StatusAutoRefresh.new toLowerCase page).isActive = false →
      (run evs (StatusAutoRefresh.new toLowerCase page)).refreshes = []) := by
  obtain ⟨-, -, h3, h4, -⟩ := inv_run evs _ (inv_new toLowerCase page)
  refine ⟨h4, fun r hr => ⟨(h3 r hr).1, (h3 r hr).2.1⟩, ?_⟩
  intro hidle
  have hf := new_idle toLowerCase page hidle
  rw [hf]
  exact (idle_run evs (fresh page) ⟨rfl, rfl, rfl, rfl, rfl⟩).2.2.2.2

/-- Witness for C7: on the sample tracking page the sample events produce two
refreshes, 30000 ms apart, both while the page was visible. -/
theorem refresh_at_most_once_per_period_witness :
    (run sampleEvents (StatusAutoRefresh.new asciiLower samplePage)).refreshes =
      [{ time := 30000, hidden := false }, { time := 60000, hidden := false }] ∧
    (run sampleEvents (StatusAutoRefresh.new asciiLower samplePage)).refreshes.Pairwise
      (fun a b => a.time + 30000 ≤ b.time) :=
  ⟨by decide, (refresh_at_most_once_per_period asciiLower samplePage sampleEvents).1⟩

/-- C8, as stated, fails: on a tracking page whose badge reads "Unassigned" the
trimmed, lower-cased label is not a member of the active set, and `init`
starts polling all the same, because the label contains "assigned". -/
theorem unassigned_label_starts_polling :
    asciiLower (trim "Unassigned".toList) ∉ activeStatuses ∧
    (StatusAutoRefresh.new asciiLower
      { pathname := "/request/track/7".toList, statusBadge := some "Unassigned".toList,
        hidden := false }).isActive = true ∧
    (StatusAutoRefresh.new asciiLower
      { pathname := "/request/track/7".toList, statusBadge := some "Unassigned".toList,
        hidden := false }).intervals = [{ handle := 1, period := 30000, due := 30000 }] := by
  refine ⟨by decide, by decide, by decide⟩

/-- C8, amended: `init` starts polling (sets `isActive`, stores the handle of one
new timer of period 30000) exactly when the path contains `/request/track`, a
status badge exists, and its trimmed, lower-cased text contains one of
"submitted", "assigned", "in progress" as a substring; this is so in particular
when that text is a member of the active set.  Otherwise the instance stays as
the constructor left it. -/
theorem init_starts_iff_label_contains_active (toLowerCase : JSString → JSString)
    (page : Page) :
    ((StatusAutoRefresh.new toLowerCase page).isActive = true ↔
      (includes page.pathname "/request/track".toList = true ∧
        ∃ text, page.statusBadge = some text ∧
          ∃ a ∈ activeStatuses, a <:+: toLowerCase (trim text))) ∧
    ((StatusAutoRefresh.new toLowerCase page).isActive = true →
      (StatusAutoRefresh.new toLowerCase page).interval = some 1 ∧
      (StatusAutoRefresh.new toLowerCase page).intervals =
        [{ handle := 1, period := 30000, due := 30000 }]) ∧
    ((StatusAutoRefresh.new toLowerCase page).isActive = false →
      StatusAutoRefresh.new toLowerCase page = fresh page) ∧
    (∀ text, includes page.pathname "/request/track".toList = true →
      page.statusBadge = some text → toLowerCase (trim text) ∈ activeStatuses →
      (StatusAutoRefresh.new toLowerCase page).isActive = true) := by
  have key : (StatusAutoRefresh.new toLowerCase page).isActive = true ↔
      (includes page.pathname "/request/track".toList = true ∧
        ∃ text, page.statusBadge = some text ∧
          ∃ a ∈ activeStatuses, a <:+: toLowerCase (trim text)) := by
    rcases new_cases toLowerCase page with ⟨hn, hp, text, ht, ha⟩ | ⟨hn, hc⟩
    · rw [hn]
      obtain ⟨a, ham, hai⟩ := List.any_eq_true.1 ha
      exact ⟨fun _ => ⟨hp, text, ht, a, ham, (includes_iff _ _).1 hai⟩, fun _ => rfl⟩
    · rw [hn]
      constructor
      · intro h; simp [fresh] at h
      · rintro ⟨hp, text, ht, a, ham, hai⟩
        exact absurd
          ⟨hp, text, ht, List.any_eq_true.2 ⟨a, ham, (includes_iff _ _).2 hai⟩⟩ hc
  refine ⟨key, ?_, new_idle toLowerCase page, ?_⟩
  · intro h
    rcases new_cases toLowerCase page with ⟨hn, -⟩ | ⟨hn, -⟩
    · rw [hn]; simp [startAutoRefresh, fresh]
    · rw [hn] at h; simp [fresh] at h
  · intro text hp ht hm
    exact key.2 ⟨hp, text, ht, _, hm, List.infix_refl _⟩

/-- Witness for C8 (amended): the sample tracking page, whose badge reads
" Assigned ", is started by `init`. -/
theorem init_starts_iff_label_contains_active_witness :
    asciiLower (trim " Assigned ".toList) ∈ activeStatuses ∧
    (StatusAutoRefresh.new asciiLower samplePage).isActive = true :=
  ⟨by decide,
    (init_starts_iff_label_contains_active asciiLower samplePage).2.2.2 " Assigned ".toList
      (by decide) rfl (by decide)⟩

theorem trim_padded (pre core post : JSString)
    (hpre : ∀ c ∈ pre, isTrimChar c = true) (hpost : ∀ c ∈ post, isTrimChar c = true)
    (hcore : ∀ c ∈ core, isTrimChar c = false) (hne : core ≠ []) :
    trim (pre ++ core ++ post) = core := by
  unfold trim
  rw [List.append_assoc, List.dropWhile_append_of_pos hpre]
  cases core with
  | nil => exact absurd rfl hne
  | cons c cs =>
    have hc : ¬ (isTrimChar c = true) := by simp [hcore c (by simp)]
    rw [List.cons_append, List.dropWhile_cons_of_neg hc, ← List.cons_append,
      List.reverse_append,
      List.dropWhile_append_of_pos (fun a ha => hpost a (List.mem_reverse.1 ha))]
    cases hr : (c :: cs).reverse with
    | nil => simp at hr
    | cons x xs =>
      have hx : x ∈ c :: cs := by
        rw [← List.mem_reverse, hr]; simp
      have hxn : ¬ (isTrimChar x = true) := by simp [hcore x hx]
      rw [List.dropWhile_cons_of_neg hxn, ← hr, List.reverse_reverse]

theorem letter_of_asciiLowerChar (c : Char)
    (h : 97 ≤ (asciiLowerChar c).toNat ∧ (asciiLowerChar c).toNat ≤ 122) :
    c.toNat < 128 ∧ isTrimChar c = false := by
  have hr : 65 ≤ c.toNat ∧ c.toNat ≤ 122 := by
    unfold asciiLowerChar at h
    split at h
    · next hc => omega
    · omega
  refine ⟨by omega, ?_⟩
  simp only [isTrimChar, Bool.or_eq_false_iff, beq_eq_false_iff_ne, Bool.and_eq_false_imp,
    decide_eq_true_eq, decide_eq_false_iff_not]
  omega

theorem finished_core (core : JSString)
    (h : asciiLower core ∈ ["completed".toList, "closed".toList, "cancelled".toList]) :
    core ≠ [] ∧ (∀ c ∈ core, c.toNat < 128 ∧ isTrimChar c = false) ∧
      activeStatuses.any (fun a => includes (asciiLower core) a) = false := by
  have hall : (∀ d ∈ asciiLower core, 97 ≤ d.toNat ∧ d.toNat ≤ 122) ∧ asciiLower core ≠ [] ∧
      activeStatuses.any (fun a => includes (asciiLower core) a) = false := by
    simp only [List.mem_cons, List.mem_singleton, List.not_mem_nil, or_false] at h
    rcases h with h | h | h <;> rw [h] <;> decide
  refine ⟨?_, ?_, hall.2.2⟩
  · intro hc
    rw [hc] at hall
    exact hall.2.1 rfl
  · intro c hc
    exact letter_of_asciiLowerChar c (hall.1 _ (List.mem_map.2 ⟨c, hc, rfl⟩))

/-- C9: a status badge reading "Completed", "Closed" or "Cancelled", in any
letter case and with any white space around it: the instance is left idle by
`init`, and after every sequence of visibility changes, timer ticks and passage
of time `isActive` is still false, `interval` is still `null`, no timer is
live and `refreshStatus` has never been called.  `toLowerCase` is only assumed
to lower-case ASCII text the way JavaScript does. -/
theorem finished_request_never_polls (toLowerCase : JSString → JSString)
    (hlow : ∀ s : JSString, (∀ c ∈ s, c.toNat < 128) → toLowerCase s = asciiLower s)
    (page : Page) (pre core post : JSString)
    (hbadge : page.statusBadge = some (pre ++ core ++ post))
    (hpre : ∀ c ∈ pre, isTrimChar c = true) (hpost : ∀ c ∈ post, isTrimChar c = true)
    (hcore : asciiLower core ∈ ["completed".toList, "closed".toList, "cancelled".toList])
    (evs : List PollerEvent) :
    (run evs (StatusAutoRefresh.new toLowerCase page)).isActive = false ∧
    (run evs (StatusAutoRefresh.new toLowerCase page)).interval = none ∧
    (run evs (StatusAutoRefresh.new toLowerCase page)).intervals = [] ∧
    (run evs (StatusAutoRefresh.new toLowerCase page)).refreshes = [] := by
  obtain ⟨hne, hchars, hnot⟩ := finished_core core hcore
  have htrim : trim (pre ++ core ++ post) = core :=
    trim_padded pre core post hpre hpost (fun c hc => (hchars c hc).2) hne
  have hl : toLowerCase core = asciiLower core := hlow core (fun c hc => (hchars c hc).1)
  have hnew : StatusAutoRefresh.new toLowerCase page = fresh page := by
    rcases new_cases toLowerCase page with ⟨-, -, text, ht, ha⟩ | ⟨hn, -⟩
    · rw [hbadge] at ht
      cases ht
      rw [htrim, hl, hnot] at ha
      cases ha
    · exact hn
  rw [hnew]
  obtain ⟨h1, h2, h3, -, h5⟩ := idle_run evs (fresh page) ⟨rfl, rfl, rfl, rfl, rfl⟩
  exact ⟨h1, h2, h3, h5⟩

/-- Witness for C9: the badge reads " Completed" followed by a line break; the
page is hidden and shown again and time passes. -/
theorem finished_request_never_polls_witness :
    samplePageDone.statusBadge = some (" ".toList ++ "Completed".toList ++ "\n".toList) ∧
    asciiLower "Completed".toList ∈
      ["completed".toList, "closed".toList, "cancelled".toList] ∧
    (run sampleEvents (StatusAutoRefresh.new asciiLower samplePageDone)).isActive = false ∧
    (run sampleEvents (StatusAutoRefresh.new asciiLower samplePageDone)).interval = none ∧
    (run sampleEvents (StatusAutoRefresh.new asciiLower samplePageDone)).intervals = [] ∧
    (run sampleEvents (StatusAutoRefresh.new asciiLower samplePageDone)).refreshes = [] :=
  ⟨rfl, by decide,
    finished_request_never_polls asciiLower (fun _ _ => rfl) samplePageDone
      " ".toList "Completed".toList "\n".toList rfl (by decide) (by decide) (by decide)
      sampleEvents⟩

/-- C10: for an instance that `init` started, in any state reached afterwards:
`pauseAutoRefresh` leaves no live timer and `interval` null, with `isActive`
still true and `refreshRate` still 30000; a following `resumeAutoRefresh`, any
time later, stores the handle of one new timer of period 30000 that is first
due a full 30000 ms after the resume, with `isActive` still true.  For an
instance that `init` did not start, `resumeAutoRefresh` changes nothing. -/
theorem pause_then_resume (toLowerCase : JSString → JSString) (page : Page)
    (evs : List PollerEvent) :
    ((StatusAutoRefresh.new toLowerCase page).isActive = true →
      (run evs (StatusAutoRefresh.new toLowerCase page)).isActive = true ∧
      (run evs (StatusAutoRefresh.new toLowerCase page)).refreshRate = 30000 ∧
      (pauseAutoRefresh (run evs (StatusAutoRefresh.new toLowerCase page))).interval = none ∧
      (pauseAutoRefresh (run evs (StatusAutoRefresh.new toLowerCase page))).intervals = [] ∧
      (pauseAutoRefresh (run evs (StatusAutoRefresh.new toLowerCase page))).isActive = true ∧
      (pauseAutoRefresh (run evs (StatusAutoRefresh.new toLowerCase page))).refreshRate =
        30000 ∧
      ∀ (d : Nat) (hidden : Bool),
        (resumeAutoRefresh
          { pauseAutoRefresh (run evs (StatusAutoRefresh.new toLowerCase page)) with
            now := (run evs (StatusAutoRefresh.new toLowerCase page)).now + d
            hidden := hidden }).isActive = true ∧
        (resumeAutoRefresh
          { pauseAutoRefresh (run evs (StatusAutoRefresh.new toLowerCase page)) with
            now := (run evs (StatusAutoRefresh.new toLowerCase page)).now + d
            hidden := hidden }).interval =
          some ((run evs (StatusAutoRefresh.new toLowerCase page)).nextHandle + 1) ∧
        (resumeAutoRefresh
          { pauseAutoRefresh (run evs (StatusAutoRefresh.new toLowerCase page)) with
            now := (run evs (StatusAutoRefresh.new toLowerCase page)).now + d
            hidden := hidden }).intervals =
          [{ handle := (run evs (StatusAutoRefresh.new toLowerCase page)).nextHandle + 1,
             period := 30000,
             due := (run evs (StatusAutoRefresh.new toLowerCase page)).now + d + 30000 }]) ∧
    ((StatusAutoRefresh.new toLowerCase page).isActive = false →
      resumeAutoRefresh (run evs (StatusAutoRefresh.new toLowerCase page)) =
        run evs (StatusAutoRefresh.new toLowerCase page)) := by
  constructor
  · intro hstart
    have hact := active_run evs _ hstart
    have hinv := inv_run evs _ (inv_new toLowerCase page)
    generalize run evs (StatusAutoRefresh.new toLowerCase page) = s at hact hinv
    obtain ⟨hpinv, hpi, hpis⟩ := inv_pauseAutoRefresh s hinv
    have hpa : (pauseAutoRefresh s).isActive = true := by
      unfold pauseAutoRefresh; split <;> exact hact
    have hpr : (pauseAutoRefresh s).refreshRate = 30000 := hpinv.1
    have hpn : (pauseAutoRefresh s).nextHandle = s.nextHandle := by
      unfold pauseAutoRefresh; split <;> rfl
    refine ⟨hact, hinv.1, hpi, hpis, hpa, hpr, ?_⟩
    intro d hidden
    simp [resumeAutoRefresh, startAutoRefresh, hpa, hpi, hpis, hpr, hpn, truthy]
  · intro hidle
    rw [new_idle toLowerCase page hidle]
    have h := idle_run evs (fresh page) ⟨rfl, rfl, rfl, rfl, rfl⟩
    simp [resumeAutoRefresh, h.1]

/-- Witness for C10: the sample tracking page (badge " Assigned ") is started by
`init`; after the sample events a pause leaves no timer. -/
theorem pause_then_resume_witness :
    (StatusAutoRefresh.new asciiLower samplePage).isActive = true ∧
    (pauseAutoRefresh (run sampleEvents (StatusAutoRefresh.new asciiLower samplePage))).intervals =
      [] :=
  ⟨by decide,
    ((pause_then_resume asciiLower samplePage sampleEvents).1 (by decide)).2.2.2.1⟩

end StatusAutoRefresh



/-! ## Regular expressions -/

theorem matchOne_iff (cls : Char → Bool) (k : JSString → Bool) (s : JSString) :
    matchOne cls k s = true ↔ ∃ c b, s = c :: b ∧ cls c = true ∧ k b = true := by
  cases s with
  | nil => simp [matchOne]
  | cons c cs =>
    simp only [matchOne, Bool.and_eq_true]
    constructor
    · rintro ⟨hc, hk⟩; exact ⟨c, cs, rfl, hc, hk⟩
    · rintro ⟨x, b, hs, hx, hk⟩
      cases hs
      exact ⟨hx, hk⟩

theorem matchExactly_iff (cls : Char → Bool) (k : JSString → Bool) (n : Nat) :
    ∀ s : JSString, matchExactly cls k n s = true ↔
      ∃ a b, s = a ++ b ∧ a.length = n ∧ (∀ c ∈ a, cls c = true) ∧ k b = true := by
  induction n with
  | zero =>
    intro s
    simp only [matchExactly]
    constructor
    · intro h; exact ⟨[], s, rfl, rfl, by simp, h⟩
    · rintro ⟨a, b, hs, ha, -, hk⟩
      have : a = [] := List.length_eq_zero.1 ha
      subst this
      simpa [hs] using hk
  | succ n ih =>
    intro s
    cases s with
    | nil =>
      simp only [matchExactly]
      constructor
      · intro h; cases h
      · rintro ⟨a, b, hs, ha, -, -⟩
        cases a with
        | nil => simp at ha
        | cons x xs => simp at hs
    | cons c cs =>
      simp only [matchExactly, Bool.and_eq_true, ih cs]
      constructor
      · rintro ⟨hc, a, b, hs, ha, hall, hk⟩
        refine ⟨c :: a, b, by simp [hs], by simp [ha], ?_, hk⟩
        intro d hd
        rcases List.mem_cons.1 hd with hd | hd
        · rw [hd]; exact hc
        · exact hall d hd
      · rintro ⟨a, b, hs, ha, hall, hk⟩
        cases a with
        | nil => simp at ha
        | cons x xs =>
          simp only [List.cons_append, List.cons.injEq] at hs
          obtain ⟨hx, hcs⟩ := hs
          refine ⟨by rw [hx]; exact hall x (by simp), xs, b, hcs, by simpa using ha, ?_, hk⟩
          intro d hd
          exact hall d (List.mem_cons_of_mem _ hd)

theorem matchPlus_iff (cls : Char → Bool) (k : JSString → Bool) :
    ∀ s : JSString, matchPlus cls k s = true ↔
      ∃ a b, s = a ++ b ∧ a ≠ [] ∧ (∀ c ∈ a, cls c = true) ∧ k b = true := by
  intro s
  induction s with
  | nil =>
    simp only [matchPlus]
    constructor
    · intro h; cases h
    · rintro ⟨a, b, hs, ha, -, -⟩
      cases a with
      | nil => exact absurd rfl ha
      | cons x xs => simp at hs
  | cons c cs ih =>
    simp only [matchPlus, Bool.and_eq_true, Bool.or_eq_true, ih]
    constructor
    · rintro ⟨hc, hk | ⟨a, b, hs, -, hall, hk⟩⟩
      · exact ⟨[c], cs, rfl, by simp, by simpa using hc, hk⟩
      · refine ⟨c :: a, b, by simp [hs], by simp, ?_, hk⟩
        intro d hd
        rcases List.mem_cons.1 hd with hd | hd
        · rw [hd]; exact hc
        · exact hall d hd
    · rintro ⟨a, b, hs, ha, hall, hk⟩
      cases a with
      | nil => exact absurd rfl ha
      | cons x xs =>
        simp only [List.cons_append, List.cons.injEq] at hs
        obtain ⟨hx, hcs⟩ := hs
        refine ⟨by rw [hx]; exact hall x (by simp), ?_⟩
        cases xs with
        | nil => left; simpa [hcs] using hk
        | cons y ys =>
          right
          exact ⟨y :: ys, b, hcs, by simp, fun d hd => hall d (List.mem_cons_of_mem _ hd), hk⟩

/-! ## `RequestTracker` -/

namespace RequestTracker

/-- The pattern `/^SR\d{6}[A-Z0-9]{6}$/` matches exactly the strings `SR`, six
digits, six characters of `[A-Z0-9]`. -/
theorem requestNumber_parts (s : JSString) :
    isValidRequestNumber s = true ↔
      ∃ d e, s = 'S' :: 'R' :: (d ++ e) ∧ d.length = 6 ∧ e.length = 6 ∧
        (∀ c ∈ d, isDigit c = true) ∧ (∀ c ∈ e, isUpperOrDigit c = true) := by
  simp only [isValidRequestNumber, pattern, testAnchored, matchOne_iff, matchExactly_iff, lit,
    beq_iff_eq, List.isEmpty_iff]
  constructor
  · rintro ⟨c1, b1, h1, hc1, c2, b2, h2, hc2, d, b3, h3, hd, hdall, e, b4, h4, he, heall, hb4⟩
    subst hb4 hc1 hc2
    refine ⟨d, e, ?_, hd, he, hdall, heall⟩
    rw [h1, h2, h3, h4]; simp
  · rintro ⟨d, e, hs, hd, he, hdall, heall⟩
    exact ⟨'S', 'R' :: (d ++ e), hs, rfl, 'R', d ++ e, rfl, rfl, d, e, rfl, hd, hdall, e, [],
      by simp, he, heall, rfl⟩

theorem utf16Size_of_ascii (c : Char) (h : c.toNat < 128) : utf16Size c = 1 := by
  have : c.toNat < 65536 := by omega
  simp [utf16Size, this]

theorem jsLength_of_ascii (s : JSString) (h : ∀ c ∈ s, c.toNat < 128) :
    jsLength s = s.length := by
  induction s with
  | nil => rfl
  | cons c cs ih =>
    have hc := utf16Size_of_ascii c (h c (by simp))
    have := ih (fun d hd => h d (List.mem_cons_of_mem _ hd))
    simp only [jsLength, List.map_cons, List.sum_cons, List.length_cons] at this ⊢
    omega

theorem isUpperOrDigit_range (c : Char) (h : isUpperOrDigit c = true) :
    (48 ≤ c.toNat ∧ c.toNat ≤ 57) ∨ (65 ≤ c.toNat ∧ c.toNat ≤ 90) := by
  simp only [isUpperOrDigit, isUpper, isDigit, Bool.or_eq_true, decide_eq_true_eq] at h
  omega

theorem valid_chars (r : JSString) (h : isValidRequestNumber r = true) :
    ∀ c ∈ r, isUpperOrDigit c = true := by
  obtain ⟨d, e, hs, -, -, hd, he⟩ := (requestNumber_parts r).1 h
  intro c hc
  rw [hs] at hc
  simp only [List.mem_cons, List.mem_append] at hc
  rcases hc with hc | hc | hc | hc
  · rw [hc]; decide
  · rw [hc]; decide
  · have := hd c hc
    simp only [isUpperOrDigit, this, Bool.or_true]
  · exact he c hc

/-- C11: `isValidRequestNumber(s)` is true exactly when `s` has 14 characters,
the first two being `SR`, the next six decimal digits and the last six each an
upper-case letter A-Z or a digit; such a string also has 14 UTF-16 code units.
"SR240919ABC123" passes; "12345" and "sr240919abc123" fail. -/
theorem isValidRequestNumber_iff :
    (∀ s : JSString, isValidRequestNumber s = true ↔
      (s.length = 14 ∧ s.take 2 = "SR".toList ∧
        (∀ c ∈ (s.drop 2).take 6, isDigit c = true) ∧
        (∀ c ∈ s.drop 8, isUpperOrDigit c = true))) ∧
    (∀ s : JSString, isValidRequestNumber s = true → jsLength s = 14) ∧
    isValidRequestNumber "SR240919ABC123".toList = true ∧
    isValidRequestNumber "12345".toList = false ∧
    isValidRequestNumber "sr240919abc123".toList = false := by
  have main : ∀ s : JSString, isValidRequestNumber s = true ↔
      (s.length = 14 ∧ s.take 2 = "SR".toList ∧
        (∀ c ∈ (s.drop 2).take 6, isDigit c = true) ∧
        (∀ c ∈ s.drop 8, isUpperOrDigit c = true)) := by
    intro s
    rw [requestNumber_parts]
    constructor
    · rintro ⟨d, e, hs, hd, he, hdall, heall⟩
      have h2 : List.drop 2 s = d ++ e := by rw [hs]; rfl
      have h8 : List.drop 8 s = e := by
        have : List.drop 8 s = List.drop 6 (List.drop 2 s) := by rw [List.drop_drop]
        rw [this, h2, List.drop_left' hd]
      refine ⟨by rw [hs]; simp [hd, he], by rw [hs]; rfl, ?_, ?_⟩
      · rw [h2, List.take_left' hd]; exact hdall
      · rw [h8]; exact heall
    · rintro ⟨hlen, hsr, hd, he⟩
      refine ⟨(s.drop 2).take 6, s.drop 8, ?_, ?_, ?_, hd, he⟩
      · have h1 : s = List.take 2 s ++ List.drop 2 s := (List.take_append_drop 2 s).symm
        have h2 : List.drop 2 s = List.take 6 (List.drop 2 s) ++ List.drop 6 (List.drop 2 s) :=
          (List.take_append_drop 6 _).symm
        have h3 : List.drop 6 (List.drop 2 s) = List.drop 8 s := by rw [List.drop_drop]
        rw [hsr] at h1
        rw [h3] at h2
        calc s = "SR".toList ++ List.drop 2 s := h1
          _ = "SR".toList ++ (List.take 6 (List.drop 2 s) ++ List.drop 8 s) := by rw [← h2]
          _ = _ := rfl
      · simp only [List.length_take, List.length_drop]; omega
      · simp only [List.length_drop]; omega
  refine ⟨main, ?_, by decide, by decide, by decide⟩
  intro s hs
  have hchars := valid_chars s hs
  rw [jsLength_of_ascii s ?_, ((main s).1 hs).1]
  intro c hc
  have := isUpperOrDigit_range c (hchars c hc)
  omega

theorem toNat_ofNat_small (n : Nat) (h : n < 55296) : (Char.ofNat n).toNat = n := by
  have hv : n.isValidChar := Or.inl h
  simp only [Char.ofNat, hv, dite_true, Char.toNat, Char.ofNatAux]
  simp [UInt32.toNat]

theorem asciiUpperChar_of_variant (a b : Char) (hb : isUpperOrDigit b = true)
    (h : a = b ∨ a = asciiLowerChar b) : a.toNat < 128 ∧ asciiUpperChar a = b := by
  have hr := isUpperOrDigit_range b hb
  have hbb : asciiUpperChar b = b := by
    have : ¬ (97 ≤ b.toNat ∧ b.toNat ≤ 122) := by omega
    simp [asciiUpperChar, this]
  rcases h with h | h
  · rw [h]; exact ⟨by omega, hbb⟩
  · by_cases hu : 65 ≤ b.toNat ∧ b.toNat ≤ 90
    · have ha : a.toNat = b.toNat + 32 := by
        rw [h, asciiLowerChar, if_pos hu]
        exact toNat_ofNat_small _ (by omega)
      refine ⟨by omega, ?_⟩
      have hcond : 97 ≤ a.toNat ∧ a.toNat ≤ 122 := by omega
      rw [asciiUpperChar, if_pos hcond, ha, Nat.add_sub_cancel, Char.ofNat_toNat]
    · have : a = b := by rw [h, asciiLowerChar, if_neg hu]
      rw [this]; exact ⟨by omega, hbb⟩

theorem asciiUpper_of_variant (s r : JSString)
    (h : List.Forall₂ (fun a b => a = b ∨ a = asciiLowerChar b) s r)
    (hr : ∀ c ∈ r, isUpperOrDigit c = true) :
    (∀ c ∈ s, c.toNat < 128) ∧ asciiUpper s = r := by
  induction h with
  | nil => exact ⟨by simp, rfl⟩
  | cons hab _ ih =>
    obtain ⟨h1, h2⟩ := ih (fun c hc => hr c (List.mem_cons_of_mem _ hc))
    obtain ⟨h3, h4⟩ := asciiUpperChar_of_variant _ _ (hr _ (by simp)) hab
    refine ⟨?_, ?_⟩
    · intro c hc
      rcases List.mem_cons.1 hc with hc | hc
      · rw [hc]; exact h3
      · exact h1 c hc
    · simp only [asciiUpper, List.map_cons, h4] at h2 ⊢
      rw [h2]

/-- C12: `toUpperCase` being only assumed to upper-case ASCII text the way
JavaScript does: for every valid request number `r` and every string `s` that
differs from `r` only in the letter case of some letters, `formatRequestNumber`
turns `s` into `r`, which passes `isValidRequestNumber`; and for every input
whatsoever the result consists only of characters A-Z and 0-9. -/
theorem formatRequestNumber_normalises (toUpperCase : JSString → JSString)
    (hup : ∀ s : JSString, (∀ c ∈ s, c.toNat < 128) → toUpperCase s = asciiUpper s) :
    (∀ r s : JSString, isValidRequestNumber r = true →
      s.length = r.length → (∀ p ∈ s.zip r, p.1 = p.2 ∨ p.1 = asciiLowerChar p.2) →
      formatRequestNumber toUpperCase s = r ∧
      isValidRequestNumber (formatRequestNumber toUpperCase s) = true) ∧
    (∀ v : JSString, ∀ c ∈ formatRequestNumber toUpperCase v, isUpperOrDigit c = true) := by
  constructor
  · intro r s hr hlen hzip
    have hchars := valid_chars r hr
    have hf : List.Forall₂ (fun a b => a = b ∨ a = asciiLowerChar b) s r :=
      List.forall₂_iff_zip.2 ⟨hlen, fun {a b} hab => hzip (a, b) hab⟩
    obtain ⟨hascii, hupper⟩ := asciiUpper_of_variant s r hf hchars
    have heq : formatRequestNumber toUpperCase s = r := by
      rw [formatRequestNumber, hup s hascii, hupper, deleteClass]
      apply List.filter_eq_self.2
      intro c hc
      simp [hchars c hc]
    exact ⟨heq, by rw [heq]; exact hr⟩
  · intro v c hc
    rw [formatRequestNumber, deleteClass] at hc
    simpa using (List.mem_filter.1 hc).2

/-- Witness for C12: "sr240919abc123" is turned into "SR240919ABC123". -/
theorem formatRequestNumber_normalises_witness :
    formatRequestNumber asciiUpper "sr240919abc123".toList = "SR240919ABC123".toList ∧
    isValidRequestNumber (formatRequestNumber asciiUpper "sr240919abc123".toList) = true :=
  (formatRequestNumber_normalises asciiUpper (fun _ _ => rfl)).1
    "SR240919ABC123".toList "sr240919abc123".toList (by decide) (by decide) (by decide)

/-- C13: for every value of the request-number field, `handleTrackSubmit`
returns normally; it blocks the submission (`preventDefault`, then exactly one
alert, then focus on the field) exactly when the trimmed value is empty or
fails `isValidRequestNumber`, and has no effect at all when the trimmed value
is a valid request number. -/
theorem handleTrackSubmit_blocks_iff (value : JSString) :
    ∃ effects, handleTrackSubmit (some value) = some effects ∧
      ((SubmitEffect.preventDefault ∈ effects ∧ alerts effects = 1 ∧
          SubmitEffect.focus ∈ effects) ↔
        (trim value = [] ∨ isValidRequestNumber (trim value) = false)) ∧
      (trim value = [] →
        effects = [SubmitEffect.preventDefault,
          SubmitEffect.showAlert "Please enter a request number." "error",
          SubmitEffect.focus]) ∧
      (trim value ≠ [] → isValidRequestNumber (trim value) = false →
        effects = [SubmitEffect.preventDefault,
          SubmitEffect.showAlert "Please enter a valid request number format." "error",
          SubmitEffect.focus]) ∧
      (isValidRequestNumber (trim value) = true → effects = []) := by
  by_cases hempty : trim value = []
  · have hinv : isValidRequestNumber [] = false := by decide
    refine ⟨_, by simp [handleTrackSubmit, hempty], ?_, fun _ => rfl,
      fun h => absurd hempty h, ?_⟩
    · simp [alerts, hempty]
    · intro h; rw [hempty, hinv] at h; cases h
  · by_cases hvalid : isValidRequestNumber (trim value) = true
    · refine ⟨[], by simp [handleTrackSubmit, hempty, hvalid], ?_, fun h => absurd h hempty,
        ?_, fun _ => rfl⟩
      · simp [alerts, hempty, hvalid]
      · intro _ h; rw [hvalid] at h; cases h
    · have hfalse : isValidRequestNumber (trim value) = false := by simpa using hvalid
      refine ⟨_, by simp [handleTrackSubmit, hempty, hfalse], ?_, fun h => absurd h hempty,
        fun _ _ => rfl, ?_⟩
      · simp [alerts, hfalse]
      · intro h; rw [hfalse] at h; cases h

end RequestTracker

/-! ## `StatusAutoRefresh`: one timer, many listeners -/

/-- C14: in every state of a `StatusAutoRefresh` instance reached from its
construction by any sequence of visibility changes (of either kind, repeated or
not), timer ticks and passage of time, at most one interval timer is live, and
it is the one whose handle `interval` holds; this although every call of
`startAutoRefresh` registers one more `visibilitychange` listener (after the
sample events two listeners are registered and one timer is live). -/
theorem at_most_one_interval_timer (toLowerCase : JSString → JSString) (page : Page)
    (evs : List StatusAutoRefresh.PollerEvent) :
    (StatusAutoRefresh.run evs (StatusAutoRefresh.new toLowerCase page)).intervals.length ≤ 1 ∧
    (∀ i ∈ (StatusAutoRefresh.run evs (StatusAutoRefresh.new toLowerCase page)).intervals,
      (StatusAutoRefresh.run evs (StatusAutoRefresh.new toLowerCase page)).interval =
        some i.handle) ∧
    (∀ s : StatusAutoRefresh, (StatusAutoRefresh.startAutoRefresh s).listeners =
      s.listeners + 1) ∧
    (StatusAutoRefresh.run sampleEvents (StatusAutoRefresh.new asciiLower samplePage)).listeners
      = 2 ∧
    (StatusAutoRefresh.run sampleEvents
      (StatusAutoRefresh.new asciiLower samplePage)).intervals.length = 1 := by
  obtain ⟨-, h2, -⟩ := StatusAutoRefresh.inv_run evs _ (StatusAutoRefresh.inv_new toLowerCase page)
  refine ⟨?_, ?_, fun _ => rfl, by decide, by decide⟩
  · rcases h2 with ⟨-, h⟩ | ⟨i, h, -⟩ <;> simp [h]
  · intro i hi
    rcases h2 with ⟨-, h⟩ | ⟨j, h, hj, -⟩
    · rw [h] at hi; simp at hi
    · rw [h] at hi
      rw [List.mem_singleton.1 hi]; exact hj

/-! ## Password strength -/

theorem char_class_cases (c : Char) :
    isLower c = true ∨ isUpper c = true ∨ isDigit c = true ∨
      (!(isUpper c || isLower c || isDigit c)) = true := by
  cases isLower c <;> cases isUpper c <;> cases isDigit c <;> simp

theorem strength_pos_of_class (password : JSString)
    (h : testClass isLower password = true ∨ testClass isUpper password = true ∨
      testClass isDigit password = true ∨
      testClass (fun c => !(isUpper c || isLower c || isDigit c)) password = true) :
    1 ≤ calculatePasswordStrength password := by
  simp only [calculatePasswordStrength]
  rcases h with h | h | h | h <;> simp only [h, if_true] <;> split_ifs <;> omega

/-- C15: for every password, `calculatePasswordStrength` returns a number
between 0 and 6; it returns 0 exactly for the empty password, because every
character is in one of the four classes tested; and the `switch` of
`updatePasswordStrengthIndicator` then selects one of its five labelled
outcomes. -/
theorem calculatePasswordStrength_range (password : JSString) :
    calculatePasswordStrength password ≤ 6 ∧
    (calculatePasswordStrength password = 0 ↔ password = []) ∧
    (∀ c ∈ password, isLower c = true ∨ isUpper c = true ∨ isDigit c = true ∨
      (!(isUpper c || isLower c || isDigit c)) = true) ∧
    updatePasswordStrengthIndicator (calculatePasswordStrength password) ∈
      [{ percentage := 20, className := "bg-danger", text := "Very Weak" },
       { percentage := 40, className := "bg-warning", text := "Weak" },
       { percentage := 60, className := "bg-info", text := "Fair" },
       { percentage := 80, className := "bg-primary", text := "Good" },
       { percentage := 100, className := "bg-success", text := "Strong" }] := by
  have hle : calculatePasswordStrength password ≤ 6 := by
    simp only [calculatePasswordStrength]
    split_ifs <;> omega
  refine ⟨hle, ?_, fun c _ => char_class_cases c, ?_⟩
  · constructor
    · intro h0
      cases password with
      | nil => rfl
      | cons c cs =>
        exfalso
        have hpos : 1 ≤ calculatePasswordStrength (c :: cs) := by
          apply strength_pos_of_class
          rcases char_class_cases c with h | h | h | h
          · exact Or.inl (by simp [testClass, h])
          · exact Or.inr (Or.inl (by simp [testClass, h]))
          · exact Or.inr (Or.inr (Or.inl (by simp [testClass, h])))
          · exact Or.inr (Or.inr (Or.inr (by
              simp only [testClass, List.any_cons, h, Bool.true_or])))
        omega
    · intro h; rw [h]; decide
  · generalize calculatePasswordStrength password = n at hle
    interval_cases n <;> simp [updatePasswordStrengthIndicator]

/-! ## `ServiceRequestForm` -/

namespace ServiceRequestForm

theorem isDigit_range (c : Char) (h : isDigit c = true) : 48 ≤ c.toNat ∧ c.toNat ≤ 57 := by
  simpa [isDigit] using h

theorem digits_of_deleteClass (input : JSString) :
    ∀ c ∈ deleteClass (fun c => !isDigit c) input, isDigit c = true := by
  intro c hc
  simpa [deleteClass] using (List.mem_filter.1 hc).2

theorem deleteClass_of_digits (d : JSString) (hd : ∀ c ∈ d, isDigit c = true) :
    deleteClass (fun c => !isDigit c) d = d := by
  apply List.filter_eq_self.2
  intro c hc
  simp [hd c hc]

theorem phoneInputHandler_fixed (d : JSString) (hd : ∀ c ∈ d, isDigit c = true) :
    phoneInputHandler ("+234".toList ++ d) = "+234".toList ++ d := by
  have hv : deleteClass (fun c => !isDigit c) ("+234".toList ++ d) = '2' :: '3' :: '4' :: d := by
    have h1 : deleteClass (fun c => !isDigit c) ("+234".toList ++ d) =
        deleteClass (fun c => !isDigit c) "+234".toList ++
          deleteClass (fun c => !isDigit c) d := by
      unfold deleteClass
      rw [List.filter_append]
    rw [h1, deleteClass_of_digits d hd]
    have h2 : deleteClass (fun c => !isDigit c) "+234".toList = "234".toList := by decide
    rw [h2]; rfl
  simp only [phoneInputHandler, hv]
  have hp : "234".toList.isPrefixOf ('2' :: '3' :: '4' :: d) = true := by
    simp [List.isPrefixOf]
  rw [if_pos hp]; rfl

/-- C16: for every input, the phone formatter returns the empty string when the
input contains no digit 0-9, and otherwise `+234` followed only by decimal
digits; applied to its own result it returns that result unchanged. -/
theorem phoneInputHandler_shape (input : JSString) :
    ((phoneInputHandler input = [] ∧ ∀ c ∈ input, isDigit c = false) ∨
      (∃ d, phoneInputHandler input = "+234".toList ++ d ∧ (∀ c ∈ d, isDigit c = true) ∧
        ∃ c ∈ input, isDigit c = true)) ∧
    phoneInputHandler (phoneInputHandler input) = phoneInputHandler input := by
  have hdig := digits_of_deleteClass input
  have hsub : ∀ c ∈ deleteClass (fun c => !isDigit c) input, c ∈ input := by
    intro c hc
    exact (List.mem_filter.1 hc).1
  have hnil : deleteClass (fun c => !isDigit c) input = [] → ∀ c ∈ input, isDigit c = false := by
    intro h c hc
    by_contra hd
    have hd' : isDigit c = true := by simpa using hd
    have : c ∈ deleteClass (fun c => !isDigit c) input :=
      List.mem_filter.2 ⟨hc, by simp [hd']⟩
    rw [h] at this
    simp at this
  have shape : (phoneInputHandler input = [] ∧ ∀ c ∈ input, isDigit c = false) ∨
      (∃ d, phoneInputHandler input = "+234".toList ++ d ∧ (∀ c ∈ d, isDigit c = true) ∧
        ∃ c ∈ input, isDigit c = true) := by
    simp only [phoneInputHandler]
    generalize deleteClass (fun c => !isDigit c) input = v at hdig hsub hnil
    by_cases h1 : "234".toList.isPrefixOf v = true
    · rw [if_pos h1]
      obtain ⟨d, hd⟩ := List.isPrefixOf_iff_prefix.1 h1
      right
      refine ⟨d, by rw [← hd]; rfl, ?_, ?_⟩
      · intro c hc
        exact hdig c (by rw [← hd]; exact List.mem_append_right _ hc)
      · exact ⟨'2', hsub _ (by rw [← hd]; simp), by decide⟩
    · rw [if_neg h1]
      by_cases h2 : "0".toList.isPrefixOf v = true
      · rw [if_pos h2]
        obtain ⟨d, hd⟩ := List.isPrefixOf_iff_prefix.1 h2
        right
        refine ⟨d, by rw [← hd]; rfl, ?_, ?_⟩
        · intro c hc
          exact hdig c (by rw [← hd]; exact List.mem_append_right _ hc)
        · exact ⟨'0', hsub _ (by rw [← hd]; simp), by decide⟩
      · rw [if_neg h2]
        cases v with
        | nil =>
          left
          exact ⟨by simp [jsLength], hnil rfl⟩
        | cons c cs =>
          right
          have hc := hdig c (by simp)
          have hr := isDigit_range c hc
          have hplus : "+".toList.isPrefixOf (c :: cs) = false := by
            have hne : ('+' == c) = false := by
              rw [beq_eq_false_iff_ne]
              intro h
              rw [← h] at hr
              revert hr
              decide
            simp [List.isPrefixOf, hne]
          have hlen : jsLength (c :: cs) > 0 := by
            have := RequestTracker.utf16Size_of_ascii c (by omega)
            simp only [jsLength, List.map_cons, List.sum_cons]
            omega
          have hcond : (decide (jsLength (c :: cs) > 0) &&
              !("+".toList.isPrefixOf (c :: cs))) = true := by
            rw [hplus, decide_eq_true hlen]; rfl
          rw [if_pos hcond]
          exact ⟨c :: cs, rfl, hdig, c, hsub c (by simp), hc⟩
  refine ⟨shape, ?_⟩
  rcases shape with ⟨h, -⟩ | ⟨d, h, hd, -⟩
  · rw [h]; decide
  · rw [h]; exact phoneInputHandler_fixed d hd

/-- C17: `isValidEmail(e)` is true exactly when `e` contains no white space,
contains exactly one `@`, with at least one character before it, and the part
after the `@` contains a `.` with at least one character of that part before it
and at least one character after it. -/
theorem isValidEmail_iff (e : JSString) :
    isValidEmail e = true ↔
      ((∀ c ∈ e, isTrimChar c = false) ∧ e.count '@' = 1 ∧
        ∃ x rest, e = x ++ '@' :: rest ∧ x ≠ [] ∧
          ∃ y z, rest = y ++ '.' :: z ∧ y ≠ [] ∧ z ≠ []) := by
  have hcls : ∀ l : JSString, (∀ c ∈ l, isEmailChar c = true) ↔
      ((∀ c ∈ l, isTrimChar c = false) ∧ l.count '@' = 0) := by
    intro l
    rw [List.count_eq_zero]
    constructor
    · intro h
      refine ⟨fun c hc => ?_, fun hm => ?_⟩
      · have := h c hc
        simp only [isEmailChar, Bool.not_eq_true', Bool.or_eq_false_iff] at this
        exact this.1
      · have := h _ hm
        simp [isEmailChar] at this
    · rintro ⟨h1, h2⟩ c hc
      have hne : c ≠ '@' := fun h => h2 (h ▸ hc)
      simp [isEmailChar, h1 c hc, hne]
  have hat : isTrimChar '@' = false := by decide
  have hdot : isTrimChar '.' = false := by decide
  simp only [isValidEmail, emailRegex, testAnchored, matchPlus_iff, matchOne_iff, lit,
    beq_iff_eq, List.isEmpty_iff]
  constructor
  · rintro ⟨x, b1, h1, hx, hxall, c1, b2, h2, hc1, y, b3, h3, hy, hyall, c2, b4, h4, hc2,
      z, b5, h5, hz, hzall, hb5⟩
    subst hb5 hc1 hc2
    obtain ⟨hx1, hx2⟩ := (hcls x).1 hxall
    obtain ⟨hy1, hy2⟩ := (hcls y).1 hyall
    obtain ⟨hz1, hz2⟩ := (hcls z).1 hzall
    have he : e = x ++ '@' :: (y ++ '.' :: z) := by
      rw [h1, h2, h3, h4, h5]; simp
    refine ⟨?_, ?_, x, y ++ '.' :: z, he, hx, y, z, rfl, hy, hz⟩
    · intro c hc
      rw [he] at hc
      simp only [List.mem_append, List.mem_cons] at hc
      rcases hc with hc | hc | hc | hc | hc
      · exact hx1 c hc
      · rw [hc]; exact hat
      · exact hy1 c hc
      · rw [hc]; exact hdot
      · exact hz1 c hc
    · rw [he]
      simp [List.count_append, List.count_cons, hx2, hy2, hz2]
  · rintro ⟨hws, hcount, x, rest, he, hx, y, z, hrest, hy, hz⟩
    subst hrest
    have hmem : ∀ l : JSString, (∀ c ∈ l, c ∈ e) → l.count '@' = 0 →
        ∀ c ∈ l, isEmailChar c = true :=
      fun l hl h0 => (hcls l).2 ⟨fun c hc => hws c (hl c hc), h0⟩
    have hc : x.count '@' + (1 + (y.count '@' + z.count '@')) = 1 := by
      rw [he] at hcount
      simpa [List.count_append, List.count_cons, Nat.add_comm, Nat.add_left_comm] using hcount
    refine ⟨x, '@' :: (y ++ '.' :: z), he, hx, hmem x ?_ (by omega), '@', y ++ '.' :: z, rfl,
      rfl, y, '.' :: z, rfl, hy, hmem y ?_ (by omega), '.', z, rfl, rfl, z, [], by simp, hz,
      hmem z ?_ (by omega), rfl⟩
    · intro c hc; rw [he]; simp [hc]
    · intro c hc; rw [he]; simp [hc]
    · intro c hc; rw [he]; simp [hc]

end ServiceRequestForm

end GMServices
